import Mathlib

/-!
Verification of the nwpu-transcript-to-excel core against its specification.

The development shallowly embeds the Python sources:
  * `src/nwpu_transcript/parser.py` — term normalization and the two
    transcript-table extractors (the pdfplumber table-grid primitive is an
    external collaborator; extractors are modelled on the grids it returns);
  * `src/nwpu_transcript/excel.py` — the template-preserving workbook writer
    (the XML parse/serialize primitives of `xml.etree.ElementTree` are
    external collaborators and appear as parameters; the zip archive is
    modelled as a list of entries with per-entry metadata).

Machine strings are `String`/`List Char`; `\d` of the Python regexes is
modelled as the ASCII digit predicate and Python whitespace as the ASCII
whitespace characters (the transcripts' data never contains the exotic
Unicode digit/space code points where the two differ).
-/

namespace NwpuTranscript

/-! ## Python-style string primitives -/

/-- ASCII whitespace as stripped by `str.strip()` and matched by `\s`. -/
def isPySpace (c : Char) : Bool :=
  c = ' ' || c = '\t' || c = '\n' || c = '\r' || c = '\x0b' || c = '\x0c'

/-- `str.strip()` on a character list: drop leading and trailing whitespace. -/
def pyStrip (l : List Char) : List Char :=
  ((l.dropWhile isPySpace).reverse.dropWhile isPySpace).reverse

/-- `str.strip()` on a `String`. -/
def pyStripStr (s : String) : String :=
  ⟨pyStrip s.data⟩

/-- `_clean_text`: `None` becomes `""`, a string is stripped. -/
def clean_text (value : Option String) : String :=
  match value with
  | none => ""
  | some s => pyStripStr s

/-! ## Term Normalizer (`parser.py` lines 16–41) -/

/-- The season-to-term-number mapping `{"秋": "1", "春": "2", "冬": "3", "夏": "3"}`
followed by `mapping.get(season)`. -/
def seasonNumber (c : Char) : Option Char :=
  if c = '秋' then some '1'
  else if c = '春' then some '2'
  else if c = '冬' then some '3'
  else if c = '夏' then some '3'
  else none

/-- The regex `^(\d{4})-(\d{4})([春夏秋冬])$` applied to a full (already
stripped) string: ten characters, groups `(start, end, season)`. -/
def matchChinesePattern : List Char → Option (List Char × List Char × Char)
  | [a, b, c, d, e, f, g, h, i, j] =>
    if a.isDigit && b.isDigit && c.isDigit && d.isDigit && e = '-'
        && f.isDigit && g.isDigit && h.isDigit && i.isDigit
        && (j = '春' || j = '夏' || j = '秋' || j = '冬') then
      some ([a, b, c, d], [f, g, h, i], j)
    else
      none
  | _ => none

/-- `_convert_chinese_semester` (`parser.py` 16–30). -/
def convertChineseSemester (term : String) : Option String :=
  if term = "" then none
  else if pyStripStr term = "学期" ∨ pyStripStr term = "总学分绩点" then none
  else
    match matchChinesePattern (pyStrip term.data) with
    | none => none
    | some (y1, y2, se) =>
      match seasonNumber se with
      | none => none
      | some n => some ⟨y1 ++ '-' :: (y2 ++ ['-', n])⟩

/-- `term.replace("\n", " ").replace("\r", " ")` acts characterwise. -/
def nlToSpace (c : Char) : Char :=
  if c = '\n' ∨ c = '\r' then ' ' else c

/-- The optional group `(?:st|nd|rd|th)?` of the English regex: consume one
ordinal suffix when present. -/
def stripOrdinalSuffix (l : List Char) : List Char :=
  match l with
  | c1 :: c2 :: rest =>
    if (c1 = 's' ∧ c2 = 't') ∨ (c1 = 'n' ∧ c2 = 'd')
        ∨ (c1 = 'r' ∧ c2 = 'd') ∨ (c1 = 't' ∧ c2 = 'h') then rest
    else l
  | _ => l

/-- The anchored tail `(\d{4}-\d{4})$`: the whole remaining input must be a
nine-character year range. -/
def isYearRange (l : List Char) : Bool :=
  match l with
  | [a, b, c, d, e, f, g, h, i] =>
    a.isDigit && b.isDigit && c.isDigit && d.isDigit && e = '-'
      && f.isDigit && g.isDigit && h.isDigit && i.isDigit
  | _ => false

/-- The regex `^(\d)(?:st|nd|rd|th)?\s*(\d{4}-\d{4})$` on the cleaned input,
returning the groups `(order, years)`.  Greedy matching without backtracking
coincides with the regex here (proved in `matchEnglishPattern_eq_some_iff`). -/
def matchEnglishPattern : List Char → Option (Char × List Char)
  | [] => none
  | d :: rest =>
    if d.isDigit then
      if isYearRange ((stripOrdinalSuffix rest).dropWhile isPySpace) then
        some (d, (stripOrdinalSuffix rest).dropWhile isPySpace)
      else none
    else none

/-- `_convert_english_semester` (`parser.py` 33–41). -/
def convertEnglishSemester (term : String) : Option String :=
  if term = "" then none
  else
    match matchEnglishPattern (pyStrip (term.data.map nlToSpace)) with
    | none => none
    | some (d, years) => some ⟨years ++ ['-', d]⟩

/-- The spec's Semester Code shape `<start-year>-<end-year>-<n>` with a
four-digit start and end year and `n ∈ {1,2,3}` (spec §3, data model). -/
def isSemesterCode (s : String) : Bool :=
  match s.data with
  | [a, b, c, d, e, f, g, h, i, j, n] =>
    a.isDigit && b.isDigit && c.isDigit && d.isDigit && e = '-'
      && f.isDigit && g.isDigit && h.isDigit && i.isDigit && j = '-'
      && (n = '1' || n = '2' || n = '3')
  | _ => false

/-- Like `isSemesterCode` but allowing any decimal digit as term number. -/
def isSemesterCodeAnyDigit (s : String) : Bool :=
  match s.data with
  | [a, b, c, d, e, f, g, h, i, j, n] =>
    a.isDigit && b.isDigit && c.isDigit && d.isDigit && e = '-'
      && f.isDigit && g.isDigit && h.isDigit && i.isDigit && j = '-'
      && n.isDigit
  | _ => false

/-! ## Records and table grids (`parser.py` lines 44–209)

A table grid cell is `Option String` (pdfplumber may return `None`); a row is
a list of cells; a table is a list of rows. -/

/-- The canonical seven-field record built by both extractors; field order is
the template column order 课程名/分数/学分/学时/学时单位/课程类别/学期. -/
structure Record where
  courseName : String
  score : String
  credit : String
  hours : String
  hoursUnit : String
  category : String
  semester : String
deriving DecidableEq, Repr

/-- `_clean_text(row[i])` for an index known to be in range. -/
def cellText (row : List (Option String)) (i : Nat) : String :=
  clean_text ((row.get? i).getD none)

/-- `_clean_text(row[i]) if i < len(row) else ""` — also the value of
`_clean_text(row[i] if i < len(row) else None)`. -/
def cellTextOr (row : List (Option String)) (i : Nat) : String :=
  if i < row.length then cellText row i else ""

/-- One fixed column-index group of the Chinese layout. -/
structure Segment where
  name : Nat
  credit : Nat
  score : Nat
  category : Nat
  semester : Nat
deriving DecidableEq, Repr

/-- The left column group `{"name": 0, "credit": 3, "score": 4, "category": 5,
"semester": 8}`. -/
def segLeft : Segment := ⟨0, 3, 4, 5, 8⟩

/-- The right column group `{"name": 10, "credit": 15, "score": 16,
"category": 17, "semester": 20}`. -/
def segRight : Segment := ⟨10, 15, 16, 17, 20⟩

/-- `skip_prefixes` of `parse_chinese`. -/
def chineseSkipPrefixes : List String :=
  ["姓名", "民族", "班级", "课程名称", "毕业设计", "应修总学分", "国家英语"]

/-- The body of the inner per-block loop of `parse_chinese`
(`parser.py` 72–105): extract one record from one row under one column group,
or skip. -/
def chineseRowBlock (seg : Segment) (row : List (Option String)) : Option Record :=
  if seg.name ≥ row.length then none
  else if cellText row seg.name = "" then none
  else if chineseSkipPrefixes.any
      (fun p => p.data.isPrefixOf (cellText row seg.name).data) then none
  else
    match convertChineseSemester (cellTextOr row seg.semester) with
    | none => none
    | some semester =>
      some { courseName := cellText row seg.name
             score := cellTextOr row seg.score
             credit := cellTextOr row seg.credit
             hours := ""
             hoursUnit := "学时"
             category := cellTextOr row seg.category
             semester := semester }

/-- The two buckets `left_records`, `right_records` of `parse_chinese` after
the row loop: each non-empty row contributes to each bucket through its
column group. -/
def chineseBuckets (table : List (List (Option String))) : List Record × List Record :=
  table.foldl
    (fun (b : List Record × List Record) row =>
      if row.isEmpty then b
      else (b.1 ++ (chineseRowBlock segLeft row).toList,
            b.2 ++ (chineseRowBlock segRight row).toList))
    ([], [])

/-- `parse_chinese` on the extracted first-page table (`parser.py` 58–107):
two buckets filled row by row, left bucket emitted before the right one.
A `None`/empty table yields no records, as does an empty row. -/
def parse_chinese_table (table : List (List (Option String))) : List Record :=
  if table.isEmpty then []
  else (chineseBuckets table).1 ++ (chineseBuckets table).2

/-- All records one column group contributes to the Chinese result, top to
bottom (formalizes the spec's per-block ordering). -/
def chineseBlockRecords (seg : Segment) (table : List (List (Option String))) : List Record :=
  table.filterMap (chineseRowBlock seg)

/-- One Column-Position Map of the English layout (dict keys
course/credit/score/type/semester; `type` is a Lean keyword, hence
`typeCol`). -/
structure Positions where
  course : Nat
  credit : Nat
  score : Nat
  typeCol : Nat
  semester : Nat
deriving DecidableEq, Repr

/-- Substring test `pat in hay` of Python. -/
def listContainsSub (pat : List Char) : List Char → Bool
  | [] => pat.isEmpty
  | c :: rest => pat.isPrefixOf (c :: rest) || listContainsSub pat rest

/-- `if cell and label in cell` of `_parse_header_positions`. -/
def cellHasLabel (cell : Option String) (label : String) : Bool :=
  match cell with
  | none => false
  | some c => c ≠ "" && listContainsSub label.data c.data

/-- `for idx in range(cursor, len(header)) ... break` — first index at or
after `cursor` whose cell carries the label. -/
def findLabelFrom (label : String) (header : List (Option String)) (cursor : Nat) : Option Nat :=
  ((List.range header.length).drop cursor).find?
    (fun i => cellHasLabel ((header.get? i).getD none) label)

/-- `find_indices` of `_parse_header_positions` (`parser.py` 111–125): locate
the five labels in fixed sequence, each search starting after the previous
hit; any miss raises (here: `none`). -/
def find_indices (header : List (Option String)) (start : Nat) : Option Positions := do
  let course ← findLabelFrom "Course" header start
  let credit ← findLabelFrom "Credit" header (course + 1)
  let score ← findLabelFrom "Score" header (credit + 1)
  let ty ← findLabelFrom "Type" header (score + 1)
  let semester ← findLabelFrom "Semester" header (ty + 1)
  pure ⟨course, credit, score, ty, semester⟩

/-- `_parse_header_positions` (`parser.py` 110–129). -/
def parse_header_positions (header : List (Option String)) :
    Option (Positions × Positions) := do
  let lp ← find_indices header 0
  let rp ← find_indices header (lp.semester + 1)
  pure (lp, rp)

/-- `"".join(cell or "" for cell in row)`. -/
def rowHeaderText (row : List (Option String)) : String :=
  row.foldl (fun acc c => acc ++ c.getD "") ""

/-- `"Course" in header_text and "Semester" in header_text`. -/
def hasHeaderMarkers (row : List (Option String)) : Bool :=
  listContainsSub "Course".data (rowHeaderText row).data &&
    listContainsSub "Semester".data (rowHeaderText row).data

/-- The header scan of `parse_english` (`parser.py` 182–189): first row whose
concatenated text carries both markers, with its index. -/
def findHeader : List (List (Option String)) → Nat → Option (Nat × List (Option String))
  | [], _ => none
  | r :: rs, i => if hasHeaderMarkers r then some (i, r) else findHeader rs (i + 1)

/-- `_extract_english_record` (`parser.py` 132–162). -/
def extract_english_record (row : List (Option String)) (pos : Positions) : Option Record :=
  if pos.course ≥ row.length then none
  else if cellText row pos.course = "" then none
  else if cellText row pos.course = "Course" then none
  else
    match convertEnglishSemester (cellTextOr row pos.semester) with
    | none => none
    | some semester =>
      some { courseName := cellText row pos.course
             score := cellTextOr row pos.score
             credit := cellTextOr row pos.credit
             hours := ""
             hoursUnit := ""
             category := cellTextOr row pos.typeCol
             semester := semester }

/-- The buckets `left_bucket`, `right_bucket` of one English table's row
loop. -/
def englishBuckets (lp rp : Positions) (body : List (List (Option String))) :
    List Record × List Record :=
  body.foldl
    (fun (b : List Record × List Record) row =>
      (b.1 ++ (extract_english_record row lp).toList,
       b.2 ++ (extract_english_record row rp).toList))
    ([], [])

/-- The per-table part of `parse_english` (`parser.py` 182–208): find the
header, derive both position maps (skipping the table when either fails),
then fill a left and a right bucket from the rows after the header and emit
left before right. -/
def parse_english_table (table : List (List (Option String))) : List Record :=
  match findHeader table 0 with
  | none => []
  | some (hi, header) =>
    match parse_header_positions header with
    | none => []
    | some (lp, rp) =>
      (englishBuckets lp rp (table.drop (hi + 1))).1 ++
        (englishBuckets lp rp (table.drop (hi + 1))).2

/-- All records one side (position map) contributes from a table body, top to
bottom (formalizes the spec's per-side ordering). -/
def englishSideRecords (pos : Positions) (body : List (List (Option String))) : List Record :=
  body.filterMap (fun row => extract_english_record row pos)

/-- `parse_english` over all pages (`parser.py` 165–209): tables of each page
in encounter order, records appended table by table; empty tables skipped. -/
def parse_english_pages (pages : List (List (List (List (Option String))))) : List Record :=
  pages.foldl
    (fun recs tables =>
      tables.foldl
        (fun recs2 table =>
          if table.isEmpty then recs2 else recs2 ++ parse_english_table table)
        recs)
    []

/-- What one encountered table contributes to the English result. -/
def guardTable (t : List (List (Option String))) : List Record :=
  if t.isEmpty then [] else parse_english_table t

/-! ## XML model (`excel.py`)

`xml.etree.ElementTree` is an external collaborator: parsing bytes to a tree
and serializing a tree back are abstract parameters of the writer.  An
element carries a fully-qualified tag `\x7bnamespace\x7dlocal` (as in
ElementTree), an attribute dict in insertion order, its `.text`, and its
child elements. -/

inductive Xml where
  | elem (tag : String) (attrs : List (String × String)) (text : Option String)
      (children : List Xml)

def Xml.tagOf : Xml → String
  | .elem t _ _ _ => t

def Xml.attrsOf : Xml → List (String × String)
  | .elem _ a _ _ => a

def Xml.textOf : Xml → Option String
  | .elem _ _ tx _ => tx

def Xml.childrenOf : Xml → List Xml
  | .elem _ _ _ c => c

/-- Attribute lookup (`element.attrib.get`). -/
def getAttr (x : Xml) (key : String) : Option String :=
  (x.attrsOf.find? (fun kv => kv.1 = key)).map (·.2)

/-- `attr in element.attrib`. -/
def hasAttrKey (x : Xml) (key : String) : Bool :=
  (x.attrsOf.find? (fun kv => kv.1 = key)).isSome

/-- Dict assignment on the attribute list: an existing key keeps its
position, a new key is appended (CPython dict semantics of
`element.set`). -/
def setAttrList (attrs : List (String × String)) (key val : String) :
    List (String × String) :=
  match attrs with
  | [] => [(key, val)]
  | (k, v) :: rest =>
    if k = key then (k, val) :: rest else (k, v) :: setAttrList rest key val

def Xml.setAttr (x : Xml) (key val : String) : Xml :=
  match x with
  | .elem t a tx c => .elem t (setAttrList a key val) tx c

/-- `element.find(tag)` over direct children. -/
def Xml.findChild (x : Xml) (tag : String) : Option Xml :=
  x.childrenOf.find? (fun c => c.tagOf = tag)

/-- `element.findall(tag)` over direct children. -/
def Xml.findAll (x : Xml) (tag : String) : List Xml :=
  x.childrenOf.filter (fun c => c.tagOf = tag)

/-- In-place mutation of the first child matching `p` (Python mutates the
element object returned by `find`). -/
def modifyFirst (p : Xml → Bool) (f : Xml → Xml) : List Xml → List Xml
  | [] => []
  | c :: rest => if p c then f c :: rest else c :: modifyFirst p f rest

def Xml.modifyFirstChild (x : Xml) (tag : String) (f : Xml → Xml) : Xml :=
  match x with
  | .elem t a tx c => .elem t a tx (modifyFirst (fun ch => ch.tagOf = tag) f c)

/-- `NS_MAIN` of `excel.py`. -/
def NS_MAIN : String := "http://schemas.openxmlformats.org/spreadsheetml/2006/main"

/-- ElementTree's qualified-name form of a tag in the main namespace. -/
def qn (localName : String) : String :=
  "\x7b" ++ NS_MAIN ++ "\x7d" ++ localName

/-- `SHEET_NS_ATTRS` of `excel.py`, in dict insertion order. -/
def SHEET_NS_ATTRS : List (String × String) :=
  [("xmlns:r", "http://schemas.openxmlformats.org/officeDocument/2006/relationships"),
   ("xmlns:xdr", "http://schemas.openxmlformats.org/drawingml/2006/spreadsheetDrawing"),
   ("xmlns:x14", "http://schemas.microsoft.com/office/spreadsheetml/2009/9/main"),
   ("xmlns:mc", "http://schemas.openxmlformats.org/markup-compatibility/2006"),
   ("xmlns:etc", "http://www.wps.cn/officeDocument/2017/etCustomData")]

/-- Lines 80–82: add each namespace attribute that is not already present. -/
def ensureNs (sheetRoot : Xml) : Xml :=
  SHEET_NS_ATTRS.foldl
    (fun r kv => if hasAttrKey r kv.1 then r else Xml.setAttr r kv.1 kv.2)
    sheetRoot

/-! ## Zip archive model (`excel.py` lines 56–69, 159–180)

Entry payloads are byte strings, modelled as opaque `String`s; byte-identity
is string equality.  Per-entry metadata holds exactly the fields
`_clone_zipinfo` copies. -/

structure ZMeta where
  date_time : Nat × Nat × Nat × Nat × Nat × Nat
  compress_type : Nat
  comment : String
  extra : String
  internal_attr : Nat
  external_attr : Nat
  create_system : Nat
  create_version : Nat
  extract_version : Nat
  flag_bits : Nat
  volume : Nat
deriving DecidableEq, Repr

/-- The metadata of a bare `ZipInfo(name)` as CPython constructs it on a
POSIX host (the defensive fresh-entry branch of `_replace_zip_entries`). -/
def freshMeta : ZMeta :=
  ⟨(1980, 1, 1, 0, 0, 0), 0, "", "", 0, 0, 3, 20, 20, 0, 0⟩

structure ZEntry where
  filename : String
  meta : ZMeta
  content : String
deriving DecidableEq, Repr

/-- `ZipFile.read(name)`: CPython's `NameToInfo` maps a name to its **last**
central-directory entry, so duplicate names resolve to the last content. -/
def zip_read (arch : List ZEntry) (name : String) : Option String :=
  (arch.reverse.find? (fun e => e.filename = name)).map (·.content)

/-- Association list with dict semantics (used for `data` in
`_replace_zip_entries` and `string_to_index` in `_render_sheet`). -/
def alistLookup {β : Type} (m : List (String × β)) (k : String) : Option β :=
  (m.find? (fun kv => kv.1 = k)).map (·.2)

def alistInsert {β : Type} (m : List (String × β)) (k : String) (v : β) :
    List (String × β) :=
  match m with
  | [] => [(k, v)]
  | (k2, v2) :: rest =>
    if k2 = k then (k2, v) :: rest else (k2, v2) :: alistInsert rest k v

def alistErase {β : Type} (m : List (String × β)) (k : String) :
    List (String × β) :=
  match m with
  | [] => []
  | (k2, v2) :: rest => if k2 = k then rest else (k2, v2) :: alistErase rest k

/-- `{info.filename: zip.read(info.filename) for info in infos}`: keys in
first-occurrence order, each value read by name (hence the last duplicate's
content). -/
def zip_content_map (arch : List ZEntry) : List (String × String) :=
  arch.foldl (fun m e => alistInsert m e.filename ((zip_read arch e.filename).getD "")) []

/-- `data.update(replacements)`. -/
def applyRepl (m : List (String × String)) (repl : List (String × String)) :
    List (String × String) :=
  repl.foldl (fun m2 kv => alistInsert m2 kv.1 kv.2) m

/-- The rewrite loop of `_replace_zip_entries`: each original entry whose name
is still in `data` is re-emitted under `_clone_zipinfo` (same name and
metadata) with `data.pop(name)` as content; the remaining `data` items are
returned for the fresh-entry loop. -/
def emitEntries : List ZEntry → List (String × String) →
    List ZEntry × List (String × String)
  | [], data => ([], data)
  | e :: rest, data =>
    match alistLookup data e.filename with
    | none => emitEntries rest data
    | some b =>
      (⟨e.filename, e.meta, b⟩ :: (emitEntries rest (alistErase data e.filename)).1,
       (emitEntries rest (alistErase data e.filename)).2)

/-- `_replace_zip_entries` (`excel.py` 159–180). -/
def replace_zip_entries (arch : List ZEntry) (repl : List (String × String)) :
    List ZEntry :=
  (emitEntries arch (applyRepl (zip_content_map arch) repl)).1 ++
    (emitEntries arch (applyRepl (zip_content_map arch) repl)).2.map
      (fun kv => ⟨kv.1, freshMeta, kv.2⟩)

/-! ## Worksheet rendering (`excel.py` lines 72–156) -/

/-- `int(...)` on an attribute string: optional surrounding whitespace, an
optional sign, then at least one digit (numeric underscores are not
modelled). -/
def digitsToNat : List Char → Option Nat
  | [] => none
  | ds =>
    if ds.all Char.isDigit then
      some (ds.foldl (fun n c => n * 10 + (c.toNat - '0'.toNat)) 0)
    else none

def pyInt (s : String) : Option Int :=
  match pyStrip s.data with
  | '+' :: ds => (digitsToNat ds).map Int.ofNat
  | '-' :: ds => (digitsToNat ds).map (fun n => -(Int.ofNat n))
  | ds => (digitsToNat ds).map Int.ofNat

def col_letters : List String := ["A", "B", "C", "D", "E", "F", "G"]

/-- `column_styles` with its `.get(letter, "5")` default. -/
def styleOf (letter : String) : String :=
  (alistLookup
    [("A", "5"), ("B", "5"), ("C", "5"), ("D", "5"), ("E", "6"), ("F", "5"), ("G", "7")]
    letter).getD "5"

/-- `record.get(key, "")` for the seven `column_order` keys in order; a
`Record` always carries all seven fields, none of them `None`. -/
def recordValues (r : Record) : List String :=
  [r.courseName, r.score, r.credit, r.hours, r.hoursUnit, r.category, r.semester]

/-- The running shared-string state: pool (si texts in order), the
`string_to_index` dict, and the `total_count` usage counter. -/
structure SSState where
  pool : List String
  index : List (String × Nat)
  total : Int

/-- `{text: idx for idx, text in enumerate(shared_strings)}` — a duplicate
text keeps its first key position but its **last** index value. -/
def buildIndex (pool : List String) : List (String × Nat) :=
  pool.enum.foldl (fun m p => alistInsert m p.2 p.1) []

/-- Lines 120–124: look up or append a non-empty cell value, bump the usage
counter, return the resolved index. -/
def internString (st : SSState) (v : String) : SSState × Nat :=
  match alistLookup st.index v with
  | some k => ({ st with total := st.total + 1 }, k)
  | none =>
    ({ pool := st.pool ++ [v],
       index := alistInsert st.index v st.pool.length,
       total := st.total + 1 }, st.pool.length)

/-- Lines 111–129: one cell — bare with style for an empty value, a shared
string reference otherwise. -/
def buildCell (st : SSState) (letter : String) (rowIdx : Nat) (v : String) :
    SSState × Xml :=
  if v = "" then
    (st, .elem (qn "c") [("r", letter ++ toString rowIdx), ("s", styleOf letter)] none [])
  else
    ((internString st v).1,
     .elem (qn "c")
       [("r", letter ++ toString rowIdx), ("s", styleOf letter), ("t", "s")] none
       [.elem (qn "v") [] (some (toString (internString st v).2)) []])

def buildRowCells (st : SSState) (rowIdx : Nat) :
    List (String × String) → SSState × List Xml
  | [] => (st, [])
  | (letter, v) :: rest =>
    ((buildRowCells (buildCell st letter rowIdx v).1 rowIdx rest).1,
     (buildCell st letter rowIdx v).2 ::
       (buildRowCells (buildCell st letter rowIdx v).1 rowIdx rest).2)

/-- Lines 109–130: one synthesized `<row>` element. -/
def buildRow (st : SSState) (rowIdx : Nat) (rec : Record) : SSState × Xml :=
  ((buildRowCells st rowIdx (col_letters.zip (recordValues rec))).1,
   .elem (qn "row") [("r", toString rowIdx), ("spans", "1:7")] none
     (buildRowCells st rowIdx (col_letters.zip (recordValues rec))).2)

/-- The `enumerate(records, start=2)` loop. -/
def buildRows (st : SSState) (rowIdx : Nat) : List Record → SSState × List Xml
  | [] => (st, [])
  | rec :: rest =>
    ((buildRows (buildRow st rowIdx rec).1 (rowIdx + 1) rest).1,
     (buildRow st rowIdx rec).2 ::
       (buildRows (buildRow st rowIdx rec).1 (rowIdx + 1) rest).2)

/-- Lines 102–104: the template pool texts; a `<si>` without `<t>` raises
(`none`), a `<t>` without text reads as `""`. -/
def siTexts (sharedRoot : Xml) : Option (List String) :=
  (sharedRoot.findAll (qn "si")).mapM
    (fun si => (si.findChild (qn "t")).map (fun t => t.textOf.getD ""))

/-- Line 106: `int(shared_root.attrib.get("count", len(shared_strings)))`. -/
def sstCount (sharedRoot : Xml) (pool0 : List String) : Option Int :=
  match getAttr sharedRoot "count" with
  | some cstr => pyInt cstr
  | none => some (Int.ofNat pool0.length)

/-- The rebuilt `<sst>` element (lines 137–147). -/
def sstXml (total : Int) (pool : List String) : Xml :=
  Xml.elem (qn "sst")
    [("count", toString total), ("uniqueCount", toString pool.length)] none
    (pool.map (fun t => Xml.elem (qn "si") [] none [Xml.elem (qn "t") [] (some t) []]))

/-- `_render_sheet` after both parts are parsed (`excel.py` 79–147): returns
the new worksheet root and the new shared-string root, or the raised error. -/
def render_sheet_core (sheetRoot0 sharedRoot : Xml) (records : List Record) :
    Except String (Xml × Xml) :=
  match (ensureNs sheetRoot0).findChild (qn "sheetData") with
  | none => .error "Template sheet missing sheetData node"
  | some sheetData =>
    match sheetData.findAll (qn "row") with
    | [] => .error "Template sheet missing header row"
    | headerRow :: _ =>
      match siTexts sharedRoot with
      | none => .error "AttributeError"
      | some pool0 =>
        match sstCount sharedRoot pool0 with
        | none => .error "ValueError"
        | some total0 =>
          .ok
            (Xml.modifyFirstChild
              (Xml.modifyFirstChild (ensureNs sheetRoot0) (qn "sheetData")
                (fun _ => Xml.elem (qn "sheetData") [] none
                  (headerRow :: (buildRows ⟨pool0, buildIndex pool0, total0⟩ 2 records).2)))
              (qn "dimension")
              (fun dim => Xml.setAttr dim "ref"
                ("A1:G" ++ toString (if records.isEmpty then 1 else records.length + 1))),
             sstXml (buildRows ⟨pool0, buildIndex pool0, total0⟩ 2 records).1.total
               (buildRows ⟨pool0, buildIndex pool0, total0⟩ 2 records).1.pool)

def sheetPartName : String := "xl/worksheets/sheet1.xml"
def sharedPartName : String := "xl/sharedStrings.xml"

/-- `_render_sheet`'s archive-facing part (lines 75–77): read and parse the
two template parts (sheet first), then render. -/
def render_sheet (parseXml : String → Option Xml) (tplArch : List ZEntry)
    (records : List Record) : Except String (Xml × Xml) :=
  match zip_read tplArch sheetPartName with
  | none => .error "KeyError"
  | some sheetBytes =>
    match parseXml sheetBytes with
    | none => .error "ParseError"
    | some sheetRoot =>
      match zip_read tplArch sharedPartName with
      | none => .error "KeyError"
      | some sharedBytes =>
        match parseXml sharedBytes with
        | none => .error "ParseError"
        | some sharedRoot => render_sheet_core sheetRoot sharedRoot records

/-- The fixed XML prolog of lines 152–154. -/
def xmlProlog : String :=
  "<?xml version=\"1.0\" encoding=\"UTF-8\" standalone=\"yes\"?>\r\n"

/-- Result of one `write_to_template` call: the propagated exception, if any,
and the content of the output path afterwards. -/
structure WriteResult where
  err : Option String
  output : List ZEntry

/-- `write_to_template` (`excel.py` 34–53): copy the template to the output
path, render the two parts from the template, then patch them into the
output archive; a render failure propagates and leaves the raw copy. -/
def write_to_template (parseXml : String → Option Xml) (ser : Xml → String)
    (tpl : List ZEntry) (records : List Record) : WriteResult :=
  match render_sheet parseXml tpl records with
  | .error e => ⟨some e, tpl⟩
  | .ok (sheetXml, sharedXml) =>
    ⟨none, replace_zip_entries tpl
      [(sheetPartName, xmlProlog ++ ser sheetXml),
       (sharedPartName, xmlProlog ++ ser sharedXml)]⟩

/-- The two regenerated part names. -/
def isPayloadName (name : String) : Bool :=
  name = sheetPartName || name = sharedPartName

/-- The new strings the record loop appends to the template pool, in order of
first use (formalizes the append-only pool of the spec). -/
def appendedStrings (pool0 : List String) (vs : List String) : List String :=
  vs.foldl (fun acc v => if v ∈ pool0 ∨ v ∈ acc then acc else acc ++ [v]) []

/-- Every non-empty cell value of the synthesized rows, in traversal order
(record by record, column by column). -/
def nonEmptyCellValues (records : List Record) : List String :=
  ((records.map recordValues).flatten).filter (fun v => v ≠ "")

/-- The synthesized row for record `i` in an output worksheet. -/
def synthRow (sheet : Xml) (i : Nat) : Option Xml :=
  (sheet.findChild (qn "sheetData")).bind fun sd => sd.childrenOf.get? (i + 1)

/-- Cell `c` of the synthesized row for record `i` in an output worksheet. -/
def synthCell (sheet : Xml) (i c : Nat) : Option Xml :=
  (sheet.findChild (qn "sheetData")).bind fun sd =>
    (sd.childrenOf.get? (i + 1)).bind fun rowEl => rowEl.childrenOf.get? c

/-- The shared-string index a cell refers to (`t="s"` with a `<v>` child). -/
def cellSharedIdx (cell : Xml) : Option String :=
  if getAttr cell "t" = some "s" then
    (cell.childrenOf.get? 0).bind Xml.textOf
  else none

/-- Index of the first occurrence of `v` in `l`. -/
def firstIdxOf : List String → String → Option Nat
  | [], _ => none
  | x :: rest, v => if x = v then some 0 else (firstIdxOf rest v).map (· + 1)

/-- The index a value resolves to against the template pool `pool0` extended
by the appended strings `news`: the template dict entry if the value was in
the template pool, otherwise `pool0.length` plus its first-use position. -/
def resolveIdx (pool0 news : List String) (v : String) : Option Nat :=
  match alistLookup (buildIndex pool0) v with
  | some k => some k
  | none => (firstIdxOf news v).map (fun j => pool0.length + j)

/-- Invariant of the shared-string state after interning the non-empty cell
values `vs` starting from the template pool `pool0` and count `total0`. -/
def SSInv (pool0 : List String) (total0 : Int) (vs : List String)
    (st : SSState) : Prop :=
  st.pool = pool0 ++ appendedStrings pool0 vs ∧
  st.total = total0 + vs.length ∧
  ∀ w, alistLookup st.index w = resolveIdx pool0 (appendedStrings pool0 vs) w

/-! ### Concrete fixtures used by witnesses -/

/-- A conforming English header row: both column groups carry all five labels. -/
def engHeaderRow : List (Option String) :=
  [some "Course", some "Credit", some "Score", some "Type", some "Semester",
   some "Course", some "Credit", some "Score", some "Type", some "Semester"]

/-- One English body row with a valid record on each side. -/
def engBodyRow : List (Option String) :=
  [some "Math", some "3", some "90", some "A", some "1st 2020-2021",
   some "Phys", some "2", some "85", some "B", some "2nd 2020-2021"]

/-- A small conforming English table. -/
def engTestTable : List (List (Option String)) := [engHeaderRow, engBodyRow]

/-- An English header row carrying every label except `Type`. -/
def engHeaderRowNoType : List (Option String) :=
  [some "Course", some "Credit", some "Score", some "Semester",
   some "Course", some "Credit", some "Score", some "Semester"]

/-- A table whose header row lacks a `Type` label anywhere (Scenario D). -/
def engTableNoType : List (List (Option String)) :=
  [engHeaderRowNoType, engBodyRow]

/-- A column group whose credit/score/category indices lie beyond a 9-cell
row while name and semester are in range. -/
def chnProbeSeg : Segment := ⟨0, 20, 21, 22, 8⟩

/-- A 9-cell Chinese row: name and semester present, everything else absent. -/
def chnProbeRow : List (Option String) :=
  [some "X", none, none, none, none, none, none, none, some "2021-2022秋"]

/-- The record `chineseRowBlock chnProbeSeg chnProbeRow` produces. -/
def chnProbeRecord : Record :=
  ⟨"X", "", "", "", "学时", "", "2021-2022-1"⟩

/-- A position map whose credit/score/type indices lie beyond a 5-cell row. -/
def engProbePos : Positions := ⟨0, 20, 21, 22, 4⟩

/-- A 5-cell English row: course and semester present, everything else absent. -/
def engProbeRow : List (Option String) :=
  [some "Math", none, none, none, some "1st 2020-2021"]

/-- The record `extract_english_record engProbeRow engProbePos` produces. -/
def engProbeRecord : Record :=
  ⟨"Math", "", "", "", "", "", "2020-2021-1"⟩

/-- A worksheet root with no `sheetData` child. -/
def noSheetDataXml : Xml := Xml.elem (qn "worksheet") [] none []

/-- An empty shared-string root. -/
def emptySstXml : Xml := Xml.elem (qn "sst") [] none []

/-- A two-part template archive whose worksheet lacks `sheetData`. -/
def badTpl : List ZEntry :=
  [⟨sheetPartName, freshMeta, "S"⟩, ⟨sharedPartName, freshMeta, "T"⟩]

/-- A parser for `badTpl`'s two parts. -/
def badParse : String → Option Xml :=
  fun b => if b = "S" then some noSheetDataXml
    else if b = "T" then some emptySstXml else none

/-- A trivial serializer. -/
def serConst : Xml → String := fun _ => "OUT"

/-- A minimal valid worksheet root: `sheetData` with one header row. -/
def dupSheetXml : Xml :=
  Xml.elem (qn "worksheet") [] none
    [Xml.elem (qn "sheetData") [] none [Xml.elem (qn "row") [("r", "1")] none []]]

/-- A template archive with two distinct entries both named `"a"`. -/
def dupTpl : List ZEntry :=
  [⟨sheetPartName, freshMeta, "S2"⟩, ⟨sharedPartName, freshMeta, "T2"⟩,
   ⟨"a", freshMeta, "b1"⟩, ⟨"a", freshMeta, "b2"⟩]

/-- A parser for `dupTpl`'s two payload parts. -/
def dupParse : String → Option Xml :=
  fun b => if b = "S2" then some dupSheetXml
    else if b = "T2" then some emptySstXml else none

/-- A well-formed template archive with pairwise distinct entry names. -/
def okTpl : List ZEntry :=
  [⟨sheetPartName, freshMeta, "S2"⟩, ⟨sharedPartName, freshMeta, "T2"⟩,
   ⟨"a", freshMeta, "b1"⟩]

/-- The header row of a small concrete template worksheet. -/
def c2HeaderRow : Xml := Xml.elem (qn "row") [("r", "1")] none []

/-- The dimension element of the small template. -/
def c2Dimension : Xml := Xml.elem (qn "dimension") [("ref", "A1:G1")] none []

/-- A small template worksheet root (namespace attributes preinstalled). -/
def c2Sheet : Xml :=
  Xml.elem (qn "worksheet") SHEET_NS_ATTRS none
    [c2Dimension, Xml.elem (qn "sheetData") [] none [c2HeaderRow]]

/-- A shared-string root with an empty pool. -/
def c2Shared : Xml := Xml.elem (qn "sst") [("count", "0")] none []

/-- A record with a single non-empty cell. -/
def c2Rec : Record := ⟨"X", "", "", "", "", "", ""⟩

/-- The worksheet/shared pair the renderer produces on the small template. -/
def c2Out : Xml × Xml :=
  match render_sheet_core c2Sheet c2Shared [c2Rec] with
  | .ok p => p
  | .error _ => (c2Sheet, c2Shared)

end NwpuTranscript

namespace NwpuTranscript

/-! ## Term Normalizer lemmas -/

lemma seasonNumber_eq_some_iff (se n : Char) :
    seasonNumber se = some n ↔
      (se = '秋' ∧ n = '1') ∨ (se = '春' ∧ n = '2') ∨ (se = '冬' ∧ n = '3')
        ∨ (se = '夏' ∧ n = '3') := by
  constructor
  · intro h
    unfold seasonNumber at h
    split_ifs at h with h1 h2 h3 h4
    · exact Or.inl ⟨h1, (Option.some.inj h).symm⟩
    · exact Or.inr <| Or.inl ⟨h2, (Option.some.inj h).symm⟩
    · exact Or.inr <| Or.inr <| Or.inl ⟨h3, (Option.some.inj h).symm⟩
    · exact Or.inr <| Or.inr <| Or.inr ⟨h4, (Option.some.inj h).symm⟩
  · rintro (⟨rfl, rfl⟩ | ⟨rfl, rfl⟩ | ⟨rfl, rfl⟩ | ⟨rfl, rfl⟩) <;> decide

lemma length_eq_four_decomp {l : List Char} (h : l.length = 4) :
    ∃ a b c d, l = [a, b, c, d] := by
  rcases l with _ | ⟨a, _ | ⟨b, _ | ⟨c, _ | ⟨d, _ | ⟨e, t⟩⟩⟩⟩⟩
  · simp at h
  · simp at h
  · simp at h
  · simp at h
  · exact ⟨a, b, c, d, rfl⟩
  · simp only [List.length_cons] at h; omega

lemma matchChinesePattern_eq_some_iff (l y1 y2 : List Char) (se : Char) :
    matchChinesePattern l = some (y1, y2, se) ↔
      l = y1 ++ '-' :: (y2 ++ [se]) ∧ y1.length = 4 ∧ y1.all Char.isDigit = true ∧
        y2.length = 4 ∧ y2.all Char.isDigit = true ∧
        (se = '春' ∨ se = '夏' ∨ se = '秋' ∨ se = '冬') := by
  constructor
  · intro h
    unfold matchChinesePattern at h
    split at h
    · rename_i a b c d e f g h10 i j
      split at h
      · rename_i hcond
        simp only [Bool.and_eq_true, decide_eq_true_eq, Bool.or_eq_true] at hcond
        obtain ⟨⟨⟨⟨⟨⟨⟨⟨⟨ha, hb⟩, hc⟩, hd⟩, he⟩, hf⟩, hg⟩, hh⟩, hi⟩, hj⟩ := hcond
        simp only [Option.some.injEq, Prod.mk.injEq] at h
        obtain ⟨h1, h2, h3⟩ := h
        subst h1; subst h2; subst h3
        refine ⟨by simp [he], rfl, ?_, rfl, ?_, ?_⟩
        · simp [ha, hb, hc, hd]
        · simp [hf, hg, hh, hi]
        · tauto
      · exact absurd h (by simp)
    · exact absurd h (by simp)
  · rintro ⟨hdec, h1, hall1, h2, hall2, hse⟩
    obtain ⟨a, b, c, d, rfl⟩ := length_eq_four_decomp h1
    obtain ⟨f, g, h10, i, rfl⟩ := length_eq_four_decomp h2
    subst hdec
    simp only [List.all_cons, List.all_nil, Bool.and_eq_true, Bool.and_true] at hall1 hall2
    show matchChinesePattern [a, b, c, d, '-', f, g, h10, i, se] = _
    simp only [matchChinesePattern]
    split
    · rfl
    · rename_i hfalse
      exfalso
      apply hfalse
      rcases hse with rfl | rfl | rfl | rfl <;>
        simp [hall1.1, hall1.2.1, hall1.2.2.1, hall1.2.2.2,
          hall2.1, hall2.2.1, hall2.2.2.1, hall2.2.2.2]

lemma convertChineseSemester_eq_some_iff (s out : String) :
    convertChineseSemester s = some out ↔
      ∃ y1 y2 se n,
        pyStrip s.data = y1 ++ '-' :: (y2 ++ [se]) ∧
        y1.length = 4 ∧ y1.all Char.isDigit = true ∧
        y2.length = 4 ∧ y2.all Char.isDigit = true ∧
        seasonNumber se = some n ∧
        out = ⟨y1 ++ '-' :: (y2 ++ ['-', n])⟩ := by
  constructor
  · intro h
    unfold convertChineseSemester at h
    split at h
    · exact absurd h (by simp)
    · split at h
      · exact absurd h (by simp)
      · cases hm : matchChinesePattern (pyStrip s.data) with
        | none => rw [hm] at h; exact absurd h (by simp)
        | some trip =>
          obtain ⟨y1, y2, se⟩ := trip
          simp only [hm] at h
          cases hn : seasonNumber se with
          | none =>
            simp only [hn] at h
            exact absurd h (by simp)
          | some n =>
            simp only [hn] at h
            obtain ⟨hdec, h1, hd1, h2, hd2, -⟩ :=
              (matchChinesePattern_eq_some_iff _ _ _ _).1 hm
            exact ⟨y1, y2, se, n, hdec, h1, hd1, h2, hd2, hn, (Option.some.inj h).symm⟩
  · rintro ⟨y1, y2, se, n, hdec, h1, hd1, h2, hd2, hn, rfl⟩
    have hse : se = '春' ∨ se = '夏' ∨ se = '秋' ∨ se = '冬' := by
      rcases (seasonNumber_eq_some_iff se n).1 hn with ⟨rfl, -⟩ | ⟨rfl, -⟩ | ⟨rfl, -⟩ | ⟨rfl, -⟩
      · exact Or.inr <| Or.inr <| Or.inl rfl
      · exact Or.inl rfl
      · exact Or.inr <| Or.inr <| Or.inr rfl
      · exact Or.inr <| Or.inl rfl
    have hm : matchChinesePattern (pyStrip s.data) = some (y1, y2, se) :=
      (matchChinesePattern_eq_some_iff _ _ _ _).2 ⟨hdec, h1, hd1, h2, hd2, hse⟩
    have hslen : (pyStrip s.data).length = 10 := by
      rw [hdec]; simp [h1, h2]
    unfold convertChineseSemester
    split
    · rename_i hs
      subst hs
      exact absurd hslen (by decide)
    · split
      · rename_i hhd
        rcases hhd with hh | hh <;>
          · have := congrArg String.data hh
            rw [show (pyStripStr s).data = pyStrip s.data from rfl] at this
            rw [this] at hslen
            exact absurd hslen (by decide)
      · simp only [hm, hn]

lemma stripOrdinalSuffix_decomp (l : List Char) :
    ∃ ord, (ord = [] ∨ ord = ['s', 't'] ∨ ord = ['n', 'd'] ∨ ord = ['r', 'd'] ∨ ord = ['t', 'h'])
      ∧ l = ord ++ stripOrdinalSuffix l := by
  unfold stripOrdinalSuffix
  split
  · rename_i c1 c2 rest
    split
    · rename_i hcond
      rcases hcond with ⟨rfl, rfl⟩ | ⟨rfl, rfl⟩ | ⟨rfl, rfl⟩ | ⟨rfl, rfl⟩
      · exact ⟨['s', 't'], Or.inr <| Or.inl rfl, rfl⟩
      · exact ⟨['n', 'd'], Or.inr <| Or.inr <| Or.inl rfl, rfl⟩
      · exact ⟨['r', 'd'], Or.inr <| Or.inr <| Or.inr <| Or.inl rfl, rfl⟩
      · exact ⟨['t', 'h'], Or.inr <| Or.inr <| Or.inr <| Or.inr rfl, rfl⟩
    · exact ⟨[], Or.inl rfl, rfl⟩
  · exact ⟨[], Or.inl rfl, rfl⟩

lemma stripOrdinalSuffix_eq_self {c : Char} (rest : List Char)
    (h : c ≠ 's' ∧ c ≠ 'n' ∧ c ≠ 'r' ∧ c ≠ 't') :
    stripOrdinalSuffix (c :: rest) = c :: rest := by
  unfold stripOrdinalSuffix
  split
  · rename_i c1 c2 tail heq
    obtain ⟨rfl, -⟩ : c = c1 ∧ rest = c2 :: tail := by
      injection heq with h1 h2; exact ⟨h1, h2⟩
    rw [if_neg]
    rintro (⟨rfl, -⟩ | ⟨rfl, -⟩ | ⟨rfl, -⟩ | ⟨rfl, -⟩)
    · exact h.1 rfl
    · exact h.2.1 rfl
    · exact h.2.2.1 rfl
    · exact h.2.2.2 rfl
  · rfl

lemma not_ord_head_of_space {c : Char} (h : isPySpace c = true) :
    c ≠ 's' ∧ c ≠ 'n' ∧ c ≠ 'r' ∧ c ≠ 't' := by
  unfold isPySpace at h
  simp only [Bool.or_eq_true, decide_eq_true_eq] at h
  rcases h with ((((rfl | rfl) | rfl) | rfl) | rfl) | rfl <;> decide

lemma not_ord_head_of_digit {c : Char} (h : c.isDigit = true) :
    c ≠ 's' ∧ c ≠ 'n' ∧ c ≠ 'r' ∧ c ≠ 't' := by
  refine ⟨?_, ?_, ?_, ?_⟩ <;> rintro rfl <;> exact absurd h (by decide)

lemma isPySpace_eq_false_of_isDigit {c : Char} (h : c.isDigit = true) :
    isPySpace c = false := by
  unfold isPySpace
  have h1 : c ≠ ' ' := by rintro rfl; exact absurd h (by decide)
  have h2 : c ≠ '\t' := by rintro rfl; exact absurd h (by decide)
  have h3 : c ≠ '\n' := by rintro rfl; exact absurd h (by decide)
  have h4 : c ≠ '\r' := by rintro rfl; exact absurd h (by decide)
  have h5 : c ≠ '\x0b' := by rintro rfl; exact absurd h (by decide)
  have h6 : c ≠ '\x0c' := by rintro rfl; exact absurd h (by decide)
  simp [h1, h2, h3, h4, h5, h6]

lemma isYearRange_head {yrs : List Char} (h : isYearRange yrs = true) :
    ∃ a rest, yrs = a :: rest ∧ a.isDigit = true := by
  unfold isYearRange at h
  split at h
  · rename_i a b c d e f g h9 i
    simp only [Bool.and_eq_true, decide_eq_true_eq] at h
    exact ⟨a, _, rfl, h.1.1.1.1.1.1.1.1⟩
  · exact absurd h (by simp)

lemma dropWhile_space_append (sp yrs : List Char) (hsp : sp.all isPySpace = true)
    (hy : isYearRange yrs = true) :
    (sp ++ yrs).dropWhile isPySpace = yrs := by
  induction sp with
  | nil =>
    obtain ⟨a, rest, rfl, ha⟩ := isYearRange_head hy
    rw [List.nil_append, List.dropWhile_cons_of_neg]
    simp [isPySpace_eq_false_of_isDigit ha]
  | cons c sp ih =>
    simp only [List.all_cons, Bool.and_eq_true] at hsp
    rw [List.cons_append, List.dropWhile_cons_of_pos hsp.1]
    exact ih hsp.2

lemma matchEnglishPattern_eq_some_iff (l : List Char) (d : Char) (yrs : List Char) :
    matchEnglishPattern l = some (d, yrs) ↔
      ∃ ord sp, l = d :: (ord ++ (sp ++ yrs)) ∧ d.isDigit = true ∧
        (ord = [] ∨ ord = ['s', 't'] ∨ ord = ['n', 'd'] ∨ ord = ['r', 'd'] ∨ ord = ['t', 'h']) ∧
        sp.all isPySpace = true ∧ isYearRange yrs = true := by
  constructor
  · intro h
    unfold matchEnglishPattern at h
    split at h
    · exact absurd h (by simp)
    · rename_i c rest
      split at h
      · rename_i hd
        split at h
        · rename_i hyr
          simp only [Option.some.injEq, Prod.mk.injEq] at h
          obtain ⟨rfl, rfl⟩ := h
          obtain ⟨ord, hord, hrest⟩ := stripOrdinalSuffix_decomp rest
          refine ⟨ord, (stripOrdinalSuffix rest).takeWhile isPySpace, ?_, hd, hord, ?_, hyr⟩
          · rw [List.takeWhile_append_dropWhile, ← hrest]
          · simp only [List.all_eq_true]
            intro x hx
            exact List.mem_takeWhile_imp hx
        · exact absurd h (by simp)
      · exact absurd h (by simp)
  · rintro ⟨ord, sp, rfl, hd, hord, hsp, hyr⟩
    have hstrip : stripOrdinalSuffix (ord ++ (sp ++ yrs)) = sp ++ yrs := by
      rcases hord with rfl | rfl | rfl | rfl | rfl
      · rw [List.nil_append]
        cases sp with
        | nil =>
          rw [List.nil_append]
          obtain ⟨a, rest, rfl, ha⟩ := isYearRange_head hyr
          exact stripOrdinalSuffix_eq_self rest (not_ord_head_of_digit ha)
        | cons c sp =>
          simp only [List.all_cons, Bool.and_eq_true] at hsp
          rw [List.cons_append]
          exact stripOrdinalSuffix_eq_self _ (not_ord_head_of_space hsp.1)
      all_goals
        simp only [List.cons_append, List.nil_append, stripOrdinalSuffix]
        rw [if_pos]
        simp
    have hdrop : (stripOrdinalSuffix (ord ++ (sp ++ yrs))).dropWhile isPySpace = yrs := by
      rw [hstrip]
      exact dropWhile_space_append sp yrs hsp hyr
    simp only [matchEnglishPattern]
    rw [if_pos hd, hdrop, if_pos hyr]

lemma convertEnglishSemester_eq_some_iff (s out : String) :
    convertEnglishSemester s = some out ↔
      ∃ d ord sp yrs,
        pyStrip (s.data.map nlToSpace) = d :: (ord ++ (sp ++ yrs)) ∧
        d.isDigit = true ∧
        (ord = [] ∨ ord = ['s', 't'] ∨ ord = ['n', 'd'] ∨ ord = ['r', 'd'] ∨ ord = ['t', 'h']) ∧
        sp.all isPySpace = true ∧ isYearRange yrs = true ∧
        out = ⟨yrs ++ ['-', d]⟩ := by
  constructor
  · intro h
    unfold convertEnglishSemester at h
    split at h
    · exact absurd h (by simp)
    · cases hm : matchEnglishPattern (pyStrip (s.data.map nlToSpace)) with
      | none => rw [hm] at h; exact absurd h (by simp)
      | some p =>
        obtain ⟨d, yrs⟩ := p
        simp only [hm] at h
        obtain ⟨ord, sp, hdec, hd, hord, hsp, hyr⟩ :=
          (matchEnglishPattern_eq_some_iff _ _ _).1 hm
        exact ⟨d, ord, sp, yrs, hdec, hd, hord, hsp, hyr, (Option.some.inj h).symm⟩
  · rintro ⟨d, ord, sp, yrs, hdec, hd, hord, hsp, hyr, rfl⟩
    have hm : matchEnglishPattern (pyStrip (s.data.map nlToSpace)) = some (d, yrs) :=
      (matchEnglishPattern_eq_some_iff _ _ _).2 ⟨ord, sp, hdec, hd, hord, hsp, hyr⟩
    unfold convertEnglishSemester
    split
    · rename_i hs
      subst hs
      have : ([] : List Char) = d :: (ord ++ (sp ++ yrs)) := hdec
      exact absurd this (by simp)
    · simp only [hm]

lemma isYearRange_decomp {yrs : List Char} (h : isYearRange yrs = true) :
    ∃ a b c d f g h9 i, yrs = [a, b, c, d, '-', f, g, h9, i] ∧
      a.isDigit = true ∧ b.isDigit = true ∧ c.isDigit = true ∧ d.isDigit = true ∧
      f.isDigit = true ∧ g.isDigit = true ∧ h9.isDigit = true ∧ i.isDigit = true := by
  unfold isYearRange at h
  split at h
  · rename_i a b c d e f g h9 i
    simp only [Bool.and_eq_true, decide_eq_true_eq] at h
    obtain ⟨⟨⟨⟨⟨⟨⟨⟨ha, hb⟩, hc⟩, hd⟩, he⟩, hf⟩, hg⟩, hh⟩, hi⟩ := h
    subst he
    exact ⟨a, b, c, d, f, g, h9, i, rfl, ha, hb, hc, hd, hf, hg, hh, hi⟩
  · exact absurd h (by simp)

/-! ## Claim theorems: Term Normalizer -/

/-- **C4** — Chinese term conversion returns `YYYY-YYYY-n` exactly when the
stripped input is four digits, a hyphen, four digits and one season character,
with 秋→1, 春→2, 冬→3, 夏→3; every other string — including the empty string
and the header strings 学期 and 总学分绩点, rejected before pattern matching —
yields no match. -/
theorem C4_chinese_term_conversion :
    (∀ s out : String, convertChineseSemester s = some out ↔
      ∃ y1 y2 se n,
        pyStrip s.data = y1 ++ '-' :: (y2 ++ [se]) ∧
        y1.length = 4 ∧ y1.all Char.isDigit = true ∧
        y2.length = 4 ∧ y2.all Char.isDigit = true ∧
        seasonNumber se = some n ∧
        out = ⟨y1 ++ '-' :: (y2 ++ ['-', n])⟩) ∧
    seasonNumber '秋' = some '1' ∧ seasonNumber '春' = some '2' ∧
    seasonNumber '冬' = some '3' ∧ seasonNumber '夏' = some '3' ∧
    convertChineseSemester "" = none ∧
    convertChineseSemester "学期" = none ∧
    convertChineseSemester "总学分绩点" = none :=
  ⟨convertChineseSemester_eq_some_iff, rfl, rfl, rfl, rfl, rfl, rfl, rfl⟩

/-- **C5** — English term conversion first collapses newlines and carriage
returns to spaces and trims, then returns `YYYY-YYYY-N` exactly when the
result is one digit, an optional ordinal suffix st/nd/rd/th, optional
whitespace and a `YYYY-YYYY` year range; anything else (including the empty
string) yields no match.  In particular `"1st 2020-2021" ↦ "2020-2021-1"`
and `"3 2022-2023" ↦ "2022-2023-3"`. -/
theorem C5_english_term_conversion :
    (∀ s out : String, convertEnglishSemester s = some out ↔
      ∃ d ord sp yrs,
        pyStrip (s.data.map nlToSpace) = d :: (ord ++ (sp ++ yrs)) ∧
        d.isDigit = true ∧
        (ord = [] ∨ ord = ['s', 't'] ∨ ord = ['n', 'd'] ∨ ord = ['r', 'd'] ∨ ord = ['t', 'h']) ∧
        sp.all isPySpace = true ∧ isYearRange yrs = true ∧
        out = ⟨yrs ++ ['-', d]⟩) ∧
    convertEnglishSemester "1st 2020-2021" = some "2020-2021-1" ∧
    convertEnglishSemester "3 2022-2023" = some "2022-2023-3" ∧
    convertEnglishSemester "" = none :=
  ⟨convertEnglishSemester_eq_some_iff, rfl, rfl, rfl⟩

/-- **C6, counterexample** — the English conversion accepts any single digit
as term number, so it can produce a semester code whose term number is not in
{1,2,3}: on input `"9 2020-2021"` it produces `"2020-2021-9"`. -/
theorem C6_counterexample_term_number_outside :
    convertEnglishSemester "9 2020-2021" = some "2020-2021-9" ∧
    isSemesterCode "2020-2021-9" = false :=
  ⟨rfl, rfl⟩

/-- **C6, amended** — every code produced by the Term Normalizer has the form
`<4-digit-year>-<4-digit-year>-<n>` with `n` a single decimal digit; the
Chinese conversion moreover always yields `n ∈ {1,2,3}`. -/
theorem C6_amended_semester_code_shape :
    (∀ s out : String, convertChineseSemester s = some out → isSemesterCode out = true) ∧
    (∀ s out : String, convertEnglishSemester s = some out → isSemesterCodeAnyDigit out = true) := by
  constructor
  · intro s out h
    obtain ⟨y1, y2, se, n, hdec, h1, hd1, h2, hd2, hn, rfl⟩ :=
      (convertChineseSemester_eq_some_iff s out).1 h
    obtain ⟨a, b, c, d, rfl⟩ := length_eq_four_decomp h1
    obtain ⟨f, g, h9, i, rfl⟩ := length_eq_four_decomp h2
    simp only [List.all_cons, List.all_nil, Bool.and_eq_true, Bool.and_true] at hd1 hd2
    have hns : n = '1' ∨ n = '2' ∨ n = '3' := by
      rcases (seasonNumber_eq_some_iff se n).1 hn with ⟨-, rfl⟩ | ⟨-, rfl⟩ | ⟨-, rfl⟩ | ⟨-, rfl⟩
      · exact Or.inl rfl
      · exact Or.inr <| Or.inl rfl
      · exact Or.inr <| Or.inr rfl
      · exact Or.inr <| Or.inr rfl
    show isSemesterCode ⟨[a, b, c, d, '-', f, g, h9, i, '-', n]⟩ = true
    simp only [isSemesterCode]
    rcases hns with rfl | rfl | rfl <;>
      simp [hd1.1, hd1.2.1, hd1.2.2.1, hd1.2.2.2, hd2.1, hd2.2.1, hd2.2.2.1, hd2.2.2.2]
  · intro s out h
    obtain ⟨d, ord, sp, yrs, hdec, hd, hord, hsp, hyr, rfl⟩ :=
      (convertEnglishSemester_eq_some_iff s out).1 h
    obtain ⟨a, b, c, d4, f, g, h9, i, rfl, ha, hb, hc, hd4, hf, hg, hh, hi⟩ :=
      isYearRange_decomp hyr
    show isSemesterCodeAnyDigit ⟨[a, b, c, d4, '-', f, g, h9, i, '-', d]⟩ = true
    simp only [isSemesterCodeAnyDigit]
    simp [ha, hb, hc, hd4, hf, hg, hh, hi, hd]

/-- Witness for **C6 amended** at concrete inputs. -/
theorem C6_amended_semester_code_shape_witness :
    isSemesterCode "2021-2022-1" = true ∧ isSemesterCodeAnyDigit "2020-2021-1" = true :=
  ⟨C6_amended_semester_code_shape.1 "2021-2022秋" "2021-2022-1" rfl,
   C6_amended_semester_code_shape.2 "1st 2020-2021" "2020-2021-1" rfl⟩

/-! ## Extractor ordering and skipping lemmas -/

lemma chineseRowBlock_nil (seg : Segment) : chineseRowBlock seg [] = none := by
  unfold chineseRowBlock
  rw [if_pos]
  exact Nat.zero_le _

lemma chineseBuckets_eq (table : List (List (Option String))) :
    ∀ l r : List Record,
      (table.foldl
        (fun (b : List Record × List Record) row =>
          if row.isEmpty then b
          else (b.1 ++ (chineseRowBlock segLeft row).toList,
                b.2 ++ (chineseRowBlock segRight row).toList))
        (l, r))
      = (l ++ table.filterMap (chineseRowBlock segLeft),
         r ++ table.filterMap (chineseRowBlock segRight)) := by
  induction table with
  | nil => intro l r; simp
  | cons row rest ih =>
    intro l r
    simp only [List.foldl_cons]
    by_cases hrow : row.isEmpty = true
    · obtain rfl : row = [] := by simpa [List.isEmpty_iff] using hrow
      rw [if_pos hrow, ih]
      simp [List.filterMap_cons, chineseRowBlock_nil]
    · rw [if_neg hrow, ih]
      cases hf : chineseRowBlock segLeft row <;> cases hg : chineseRowBlock segRight row <;>
        simp [List.filterMap_cons, hf, hg]

lemma parse_chinese_table_eq (table : List (List (Option String))) :
    parse_chinese_table table =
      chineseBlockRecords segLeft table ++ chineseBlockRecords segRight table := by
  unfold parse_chinese_table chineseBuckets chineseBlockRecords
  by_cases h : table.isEmpty = true
  · obtain rfl : table = [] := by simpa [List.isEmpty_iff] using h
    simp
  · rw [if_neg h, chineseBuckets_eq]
    simp

lemma englishBuckets_eq (lp rp : Positions) (body : List (List (Option String))) :
    ∀ l r : List Record,
      (body.foldl
        (fun (b : List Record × List Record) row =>
          (b.1 ++ (extract_english_record row lp).toList,
           b.2 ++ (extract_english_record row rp).toList))
        (l, r))
      = (l ++ englishSideRecords lp body, r ++ englishSideRecords rp body) := by
  induction body with
  | nil => intro l r; simp [englishSideRecords]
  | cons row rest ih =>
    intro l r
    simp only [List.foldl_cons]
    rw [ih]
    cases hf : extract_english_record row lp <;> cases hg : extract_english_record row rp <;>
      simp [englishSideRecords, List.filterMap_cons, hf, hg]

lemma parse_english_table_eq (table : List (List (Option String)))
    (hi : Nat) (header : List (Option String)) (lp rp : Positions)
    (hfind : findHeader table 0 = some (hi, header))
    (hpos : parse_header_positions header = some (lp, rp)) :
    parse_english_table table =
      englishSideRecords lp (table.drop (hi + 1)) ++
        englishSideRecords rp (table.drop (hi + 1)) := by
  unfold parse_english_table englishBuckets
  simp only [hfind, hpos]
  rw [englishBuckets_eq]
  simp

lemma parse_tables_foldl (tables : List (List (List (Option String)))) :
    ∀ recs : List Record,
      (tables.foldl
        (fun recs2 table =>
          if table.isEmpty then recs2 else recs2 ++ parse_english_table table)
        recs)
      = recs ++ (tables.map guardTable).flatten := by
  induction tables with
  | nil => intro recs; simp
  | cons t rest ih =>
    intro recs
    simp only [List.foldl_cons, List.map_cons, List.flatten_cons]
    by_cases ht : t.isEmpty = true
    · rw [if_pos ht, ih]
      simp [guardTable, ht]
    · rw [if_neg ht, ih]
      simp [guardTable, ht]

lemma parse_english_pages_eq (pages : List (List (List (List (Option String))))) :
    parse_english_pages pages = (pages.flatten.map guardTable).flatten := by
  unfold parse_english_pages
  suffices h : ∀ recs : List Record,
      (pages.foldl
        (fun recs tables =>
          tables.foldl
            (fun recs2 table =>
              if table.isEmpty then recs2 else recs2 ++ parse_english_table table)
            recs)
        recs)
      = recs ++ (pages.flatten.map guardTable).flatten by
    simpa using h []
  induction pages with
  | nil => intro recs; simp
  | cons page rest ih =>
    intro recs
    simp only [List.foldl_cons]
    rw [parse_tables_foldl, ih]
    simp [List.flatten_cons, List.map_append, List.flatten_append]

/-! ## Claim theorems: extractors -/

/-- **C7** — the Chinese extractor emits all left-group records (top to
bottom) before all right-group records; the English extractor, per table,
emits all left-side records before all right-side records, the rows after
the header top to bottom, and concatenates tables in page/table encounter
order. -/
theorem C7_record_ordering :
    (∀ table, parse_chinese_table table =
       chineseBlockRecords segLeft table ++ chineseBlockRecords segRight table) ∧
    (∀ table hi header lp rp,
       findHeader table 0 = some (hi, header) →
       parse_header_positions header = some (lp, rp) →
       parse_english_table table =
         englishSideRecords lp (table.drop (hi + 1)) ++
           englishSideRecords rp (table.drop (hi + 1))) ∧
    (∀ pages, parse_english_pages pages = (pages.flatten.map guardTable).flatten) :=
  ⟨parse_chinese_table_eq,
   fun table hi header lp rp => parse_english_table_eq table hi header lp rp,
   parse_english_pages_eq⟩

/-- Witness for **C7** on a concrete two-row English table. -/
theorem C7_record_ordering_witness :
    parse_english_table engTestTable =
      englishSideRecords ⟨0, 1, 2, 3, 4⟩ (engTestTable.drop 1) ++
        englishSideRecords ⟨5, 6, 7, 8, 9⟩ (engTestTable.drop 1) :=
  C7_record_ordering.2.1 engTestTable 0 engHeaderRow ⟨0, 1, 2, 3, 4⟩ ⟨5, 6, 7, 8, 9⟩ rfl rfl

lemma findHeader_eq_none {table : List (List (Option String))}
    (h : ∀ row ∈ table, hasHeaderMarkers row = false) :
    ∀ i, findHeader table i = none := by
  induction table with
  | nil => intro i; rfl
  | cons r rs ih =>
    intro i
    unfold findHeader
    rw [if_neg]
    · exact ih (fun row hr => h row (List.mem_cons_of_mem _ hr)) (i + 1)
    · simp [h r (List.mem_cons_self _ _)]

lemma findLabelFrom_type_eq_none {header : List (Option String)}
    (h : ∀ cell ∈ header, cellHasLabel cell "Type" = false) (cur : Nat) :
    findLabelFrom "Type" header cur = none := by
  unfold findLabelFrom
  apply List.find?_eq_none.2
  intro i _
  cases hget : header.get? i with
  | none => simp [hget, cellHasLabel]
  | some cell => simp [hget, h cell (List.get?_mem hget)]

lemma find_indices_eq_none_of_no_type {header : List (Option String)}
    (h : ∀ cell ∈ header, cellHasLabel cell "Type" = false) (start : Nat) :
    find_indices header start = none := by
  unfold find_indices
  cases h1 : findLabelFrom "Course" header start with
  | none => simp [h1]
  | some c =>
    cases h2 : findLabelFrom "Credit" header (c + 1) with
    | none => simp [h1, h2]
    | some cr =>
      cases h3 : findLabelFrom "Score" header (cr + 1) with
      | none => simp [h1, h2, h3]
      | some sc => simp [h1, h2, h3, findLabelFrom_type_eq_none h]

/-- **C8** — an English table without a header row (no row whose concatenated
text has both markers), or whose header defeats the five-label search for
either position map, contributes zero records; in particular a header with no
`Type` label anywhere defeats the search; and dropping such a table from a
page leaves every other table's records unchanged. -/
theorem C8_english_table_skipping :
    (∀ table : List (List (Option String)),
       (∀ row ∈ table, hasHeaderMarkers row = false) →
       parse_english_table table = []) ∧
    (∀ (table : List (List (Option String))) hi header,
       findHeader table 0 = some (hi, header) →
       parse_header_positions header = none →
       parse_english_table table = []) ∧
    (∀ header : List (Option String),
       (∀ cell ∈ header, cellHasLabel cell "Type" = false) →
       parse_header_positions header = none) ∧
    (∀ pages1 pages2 tables1 tables2 bad,
       parse_english_table bad = [] →
       parse_english_pages (pages1 ++ (tables1 ++ bad :: tables2) :: pages2) =
         parse_english_pages (pages1 ++ (tables1 ++ tables2) :: pages2)) := by
  refine ⟨?_, ?_, ?_, ?_⟩
  · intro table h
    unfold parse_english_table
    rw [findHeader_eq_none h 0]
  · intro table hi header hfind hpos
    unfold parse_english_table
    simp [hfind, hpos]
  · intro header h
    unfold parse_header_positions
    simp [find_indices_eq_none_of_no_type h]
  · intro pages1 pages2 tables1 tables2 bad hbad
    rw [parse_english_pages_eq, parse_english_pages_eq]
    have hguard : guardTable bad = [] := by
      unfold guardTable
      split
      · rfl
      · exact hbad
    simp [List.flatten_append, List.map_append, List.flatten_cons, hguard]

/-- Witness for **C8** at concrete tables, including Scenario D's header
lacking a `Type` label. -/
theorem C8_english_table_skipping_witness :
    parse_english_table [[some "no markers here"]] = [] ∧
    parse_header_positions engHeaderRowNoType = none ∧
    parse_english_table engTableNoType = [] ∧
    parse_english_pages [[engTableNoType], [engTestTable]] =
      parse_english_pages [[], [engTestTable]] :=
  ⟨C8_english_table_skipping.1 [[some "no markers here"]] (by decide),
   C8_english_table_skipping.2.2.1 engHeaderRowNoType (by decide),
   C8_english_table_skipping.2.1 engTableNoType 0 engHeaderRowNoType rfl rfl,
   C8_english_table_skipping.2.2.2 [] [[engTestTable]] [] [] engTableNoType rfl⟩

/-- **C10** — per-block extraction is total on rows of any length: a name
column beyond the row end skips the block (`none`, no error); an
out-of-range semester column reads as empty text, which drops the block; and
out-of-range credit/score/category(type) columns read as empty text in the
emitted record. -/
theorem C10_out_of_range_columns :
    (∀ (seg : Segment) (row : List (Option String)),
       row.length ≤ seg.name → chineseRowBlock seg row = none) ∧
    (∀ (seg : Segment) (row : List (Option String)),
       row.length ≤ seg.semester → chineseRowBlock seg row = none) ∧
    (∀ (seg : Segment) (row : List (Option String)) (rec : Record),
       chineseRowBlock seg row = some rec →
         (row.length ≤ seg.credit → rec.credit = "") ∧
         (row.length ≤ seg.score → rec.score = "") ∧
         (row.length ≤ seg.category → rec.category = "")) ∧
    (∀ (pos : Positions) (row : List (Option String)),
       row.length ≤ pos.course → extract_english_record row pos = none) ∧
    (∀ (pos : Positions) (row : List (Option String)),
       row.length ≤ pos.semester → extract_english_record row pos = none) ∧
    (∀ (pos : Positions) (row : List (Option String)) (rec : Record),
       extract_english_record row pos = some rec →
         (row.length ≤ pos.credit → rec.credit = "") ∧
         (row.length ≤ pos.score → rec.score = "") ∧
         (row.length ≤ pos.typeCol → rec.category = "")) := by
  refine ⟨?_, ?_, ?_, ?_, ?_, ?_⟩
  · intro seg row h
    unfold chineseRowBlock
    rw [if_pos h]
  · intro seg row h
    unfold chineseRowBlock
    split
    · rfl
    split
    · rfl
    split
    · rfl
    have hsem : cellTextOr row seg.semester = "" := by
      unfold cellTextOr
      rw [if_neg]
      omega
    rw [hsem]
    rfl
  · intro seg row rec h
    unfold chineseRowBlock at h
    split at h
    · exact absurd h (by simp)
    split at h
    · exact absurd h (by simp)
    split at h
    · exact absurd h (by simp)
    cases hc : convertChineseSemester (cellTextOr row seg.semester) with
    | none => rw [hc] at h; exact absurd h (by simp)
    | some sem =>
      rw [hc] at h
      obtain rfl := (Option.some.inj h).symm
      refine ⟨?_, ?_, ?_⟩ <;>
        · intro hle
          show cellTextOr row _ = ""
          unfold cellTextOr
          rw [if_neg]
          omega
  · intro pos row h
    unfold extract_english_record
    rw [if_pos h]
  · intro pos row h
    unfold extract_english_record
    split
    · rfl
    split
    · rfl
    split
    · rfl
    have hsem : cellTextOr row pos.semester = "" := by
      unfold cellTextOr
      rw [if_neg]
      omega
    rw [hsem]
    rfl
  · intro pos row rec h
    unfold extract_english_record at h
    split at h
    · exact absurd h (by simp)
    split at h
    · exact absurd h (by simp)
    split at h
    · exact absurd h (by simp)
    cases hc : convertEnglishSemester (cellTextOr row pos.semester) with
    | none => rw [hc] at h; exact absurd h (by simp)
    | some sem =>
      rw [hc] at h
      obtain rfl := (Option.some.inj h).symm
      refine ⟨?_, ?_, ?_⟩ <;>
        · intro hle
          show cellTextOr row _ = ""
          unfold cellTextOr
          rw [if_neg]
          omega

/-- Witness for **C10** at concrete rows and column groups. -/
theorem C10_out_of_range_columns_witness :
    chineseRowBlock segLeft [] = none ∧
    chineseRowBlock segLeft [some "X"] = none ∧
    (chnProbeRecord.credit = "" ∧ chnProbeRecord.score = "" ∧
      chnProbeRecord.category = "") ∧
    extract_english_record [] engProbePos = none ∧
    extract_english_record [some "Math"] engProbePos = none ∧
    (engProbeRecord.credit = "" ∧ engProbeRecord.score = "" ∧
      engProbeRecord.category = "") := by
  refine ⟨C10_out_of_range_columns.1 segLeft [] (by decide),
    C10_out_of_range_columns.2.1 segLeft [some "X"] (by decide), ?_,
    C10_out_of_range_columns.2.2.2.1 engProbePos [] (by decide),
    C10_out_of_range_columns.2.2.2.2.1 engProbePos [some "Math"] (by decide), ?_⟩
  · have h := C10_out_of_range_columns.2.2.1 chnProbeSeg chnProbeRow chnProbeRecord rfl
    exact ⟨h.1 (by decide), h.2.1 (by decide), h.2.2 (by decide)⟩
  · have h := C10_out_of_range_columns.2.2.2.2.2 engProbePos engProbeRow engProbeRecord rfl
    exact ⟨h.1 (by decide), h.2.1 (by decide), h.2.2 (by decide)⟩

/-! ## XML helper lemmas -/

lemma childrenOf_setAttr (x : Xml) (k v : String) :
    (x.setAttr k v).childrenOf = x.childrenOf := by
  cases x; rfl

lemma tagOf_setAttr (x : Xml) (k v : String) :
    (x.setAttr k v).tagOf = x.tagOf := by
  cases x; rfl

lemma childrenOf_nsFold (l : List (String × String)) :
    ∀ x : Xml,
      (l.foldl (fun r kv => if hasAttrKey r kv.1 then r else Xml.setAttr r kv.1 kv.2) x).childrenOf
        = x.childrenOf := by
  induction l with
  | nil => intro x; rfl
  | cons kv rest ih =>
    intro x
    simp only [List.foldl_cons]
    rw [ih]
    split
    · rfl
    · exact childrenOf_setAttr x kv.1 kv.2

lemma findChild_ensureNs (x : Xml) (tag : String) :
    (ensureNs x).findChild tag = x.findChild tag := by
  unfold Xml.findChild ensureNs
  rw [childrenOf_nsFold]

lemma find?_modifyFirst_self {p : Xml → Bool} {f : Xml → Xml}
    (hpres : ∀ c, p c = true → p (f c) = true) :
    ∀ (l : List Xml) (c0 : Xml), l.find? p = some c0 →
      (modifyFirst p f l).find? p = some (f c0) := by
  intro l
  induction l with
  | nil => intro c0 h; exact absurd h (by simp)
  | cons c rest ih =>
    intro c0 h
    unfold modifyFirst
    by_cases hp : p c = true
    · rw [List.find?_cons_of_pos _ hp] at h
      obtain rfl := Option.some.inj h
      rw [if_pos hp]
      exact List.find?_cons_of_pos _ (hpres c hp)
    · rw [List.find?_cons_of_neg _ hp] at h
      rw [if_neg hp]
      rw [List.find?_cons_of_neg _ hp]
      exact ih c0 h

lemma find?_modifyFirst_other {p q : Xml → Bool} {f : Xml → Xml}
    (hq : ∀ c, p c = true → q c = false ∧ q (f c) = false) :
    ∀ l : List Xml, (modifyFirst p f l).find? q = l.find? q := by
  intro l
  induction l with
  | nil => rfl
  | cons c rest ih =>
    unfold modifyFirst
    by_cases hp : p c = true
    · rw [if_pos hp]
      obtain ⟨h1, h2⟩ := hq c hp
      rw [List.find?_cons_of_neg _ (by simp [h2]), List.find?_cons_of_neg _ (by simp [h1])]
    · rw [if_neg hp]
      by_cases hqc : q c = true
      · rw [List.find?_cons_of_pos _ hqc, List.find?_cons_of_pos _ hqc]
      · rw [List.find?_cons_of_neg _ hqc, List.find?_cons_of_neg _ hqc]
        exact ih

/-! ## Claim theorem: malformed template (C9) -/

/-- **C9** — when the template worksheet has no `sheetData` child, or its
`sheetData` has no row, `write_to_template` fails with an error for every
record list and the output path holds exactly the raw copy of the template:
the payload parts are never rewritten. -/
theorem C9_malformed_template_fails (parseXml : String → Option Xml) (ser : Xml → String)
    (tpl : List ZEntry) (records : List Record)
    (sheetBytes : String) (sheetRoot : Xml) (sharedBytes : String) (sharedRoot : Xml)
    (hread1 : zip_read tpl sheetPartName = some sheetBytes)
    (hparse1 : parseXml sheetBytes = some sheetRoot)
    (hread2 : zip_read tpl sharedPartName = some sharedBytes)
    (hparse2 : parseXml sharedBytes = some sharedRoot)
    (hbad : sheetRoot.findChild (qn "sheetData") = none ∨
      ∃ sd, sheetRoot.findChild (qn "sheetData") = some sd ∧ sd.findAll (qn "row") = []) :
    (write_to_template parseXml ser tpl records).err.isSome = true ∧
    (write_to_template parseXml ser tpl records).output = tpl := by
  have hcore : ∃ msg, render_sheet_core sheetRoot sharedRoot records = .error msg := by
    unfold render_sheet_core
    rw [findChild_ensureNs]
    rcases hbad with hnone | ⟨sd, hsd, hrows⟩
    · simp only [hnone]
      exact ⟨_, rfl⟩
    · simp only [hsd, hrows]
      exact ⟨_, rfl⟩
  obtain ⟨msg, hmsg⟩ := hcore
  unfold write_to_template render_sheet
  simp only [hread1, hparse1, hread2, hparse2, hmsg]
  exact ⟨by trivial, by trivial⟩

/-- Witness for **C9** on a concrete archive whose worksheet lacks
`sheetData`. -/
theorem C9_malformed_template_fails_witness :
    (write_to_template badParse serConst badTpl []).err.isSome = true ∧
    (write_to_template badParse serConst badTpl []).output = badTpl :=
  C9_malformed_template_fails badParse serConst badTpl [] "S" noSheetDataXml "T" emptySstXml
    rfl rfl rfl rfl (Or.inl rfl)

/-! ## Association-list lemmas for the archive rewrite -/

lemma alistLookup_cons {β : Type} (k2 : String) (v2 : β) (rest : List (String × β)) (k : String) :
    alistLookup ((k2, v2) :: rest) k = if k2 = k then some v2 else alistLookup rest k := by
  unfold alistLookup
  by_cases h : k2 = k
  · rw [List.find?_cons_of_pos _ (by simp [h]), if_pos h]
    rfl
  · rw [List.find?_cons_of_neg _ (by simp [h]), if_neg h]

lemma alistLookup_insert_self {β : Type} (m : List (String × β)) (k : String) (v : β) :
    alistLookup (alistInsert m k v) k = some v := by
  induction m with
  | nil => simp [alistInsert, alistLookup_cons]
  | cons kv rest ih =>
    obtain ⟨k2, v2⟩ := kv
    unfold alistInsert
    by_cases h : k2 = k
    · rw [if_pos h, alistLookup_cons, if_pos h]
    · rw [if_neg h, alistLookup_cons, if_neg h]
      exact ih

lemma alistLookup_insert_ne {β : Type} (m : List (String × β)) (k : String) (v : β)
    (k2 : String) (h : k2 ≠ k) :
    alistLookup (alistInsert m k v) k2 = alistLookup m k2 := by
  induction m with
  | nil =>
    show alistLookup [(k, v)] k2 = none
    rw [alistLookup_cons, if_neg (fun hh => h hh.symm)]
    rfl
  | cons kv rest ih =>
    obtain ⟨k3, v3⟩ := kv
    unfold alistInsert
    by_cases h3 : k3 = k
    · rw [if_pos h3, alistLookup_cons, alistLookup_cons]
      have : ¬ k3 = k2 := by rw [h3]; exact fun hh => h hh.symm
      rw [if_neg this, if_neg this]
    · rw [if_neg h3, alistLookup_cons, alistLookup_cons]
      by_cases h32 : k3 = k2
      · rw [if_pos h32, if_pos h32]
      · rw [if_neg h32, if_neg h32]
        exact ih

lemma alistLookup_erase_ne {β : Type} (m : List (String × β)) (k k2 : String) (h : k2 ≠ k) :
    alistLookup (alistErase m k) k2 = alistLookup m k2 := by
  induction m with
  | nil => rfl
  | cons kv rest ih =>
    obtain ⟨k3, v3⟩ := kv
    unfold alistErase
    by_cases h3 : k3 = k
    · rw [if_pos h3, alistLookup_cons, if_neg (by rw [h3]; exact fun hh => h hh.symm)]
    · rw [if_neg h3, alistLookup_cons, alistLookup_cons]
      by_cases h32 : k3 = k2
      · rw [if_pos h32, if_pos h32]
      · rw [if_neg h32, if_neg h32]
        exact ih

lemma mem_alistErase {β : Type} (m : List (String × β)) (k : String) :
    ∀ kv ∈ alistErase m k, kv ∈ m := by
  induction m with
  | nil => intro kv h; exact absurd h (by simp [alistErase])
  | cons kv0 rest ih =>
    intro kv h
    obtain ⟨k3, v3⟩ := kv0
    unfold alistErase at h
    by_cases h3 : k3 = k
    · rw [if_pos h3] at h
      exact List.mem_cons_of_mem _ h
    · rw [if_neg h3] at h
      rcases List.mem_cons.1 h with rfl | h2
      · exact List.mem_cons_self _ _
      · exact List.mem_cons_of_mem _ (ih kv h2)

lemma alistErase_sublist {β : Type} (m : List (String × β)) (k : String) :
    (alistErase m k).Sublist m := by
  induction m with
  | nil => exact List.Sublist.refl _
  | cons kv0 rest ih =>
    obtain ⟨k3, v3⟩ := kv0
    unfold alistErase
    by_cases h3 : k3 = k
    · rw [if_pos h3]
      exact List.Sublist.cons _ (List.Sublist.refl _)
    · rw [if_neg h3]
      exact List.Sublist.cons₂ _ ih

lemma keys_alistErase_nodup {β : Type} (m : List (String × β)) (k : String)
    (h : (m.map Prod.fst).Nodup) : ((alistErase m k).map Prod.fst).Nodup :=
  List.Nodup.sublist (List.Sublist.map _ (alistErase_sublist m k)) h

lemma mem_alistErase_key_ne {β : Type} (m : List (String × β)) (k : String)
    (h : (m.map Prod.fst).Nodup) :
    ∀ kv ∈ alistErase m k, kv.1 ≠ k := by
  induction m with
  | nil => intro kv hkv; exact absurd hkv (by simp [alistErase])
  | cons kv0 rest ih =>
    obtain ⟨k3, v3⟩ := kv0
    rw [List.map_cons, List.nodup_cons] at h
    intro kv hkv
    unfold alistErase at hkv
    by_cases h3 : k3 = k
    · rw [if_pos h3] at hkv
      intro hk
      have hmem : kv.1 ∈ rest.map Prod.fst := List.mem_map_of_mem Prod.fst hkv
      rw [hk, ← h3] at hmem
      exact h.1 hmem
    · rw [if_neg h3] at hkv
      rcases List.mem_cons.1 hkv with rfl | h2
      · exact h3
      · exact ih h.2 kv h2

lemma mem_alistInsert {β : Type} (m : List (String × β)) (k : String) (v : β) :
    ∀ kv ∈ alistInsert m k v, kv.1 = k ∨ kv ∈ m := by
  induction m with
  | nil =>
    intro kv h
    obtain rfl : kv = (k, v) := by simpa [alistInsert] using h
    exact Or.inl rfl
  | cons kv0 rest ih =>
    obtain ⟨k3, v3⟩ := kv0
    intro kv h
    unfold alistInsert at h
    by_cases h3 : k3 = k
    · rw [if_pos h3] at h
      rcases List.mem_cons.1 h with rfl | h2
      · exact Or.inl h3
      · exact Or.inr (List.mem_cons_of_mem _ h2)
    · rw [if_neg h3] at h
      rcases List.mem_cons.1 h with rfl | h2
      · exact Or.inr (List.mem_cons_self _ _)
      · rcases ih kv h2 with hk | hm
        · exact Or.inl hk
        · exact Or.inr (List.mem_cons_of_mem _ hm)

lemma mem_keys_alistInsert {β : Type} (m : List (String × β)) (k : String) (v : β) :
    ∀ x ∈ (alistInsert m k v).map Prod.fst, x ∈ m.map Prod.fst ∨ x = k := by
  intro x hx
  obtain ⟨kv, hkv, rfl⟩ := List.mem_map.1 hx
  rcases mem_alistInsert m k v kv hkv with h1 | h2
  · exact Or.inr h1
  · exact Or.inl (List.mem_map_of_mem _ h2)

lemma keys_alistInsert_nodup {β : Type} (m : List (String × β)) (k : String) (v : β)
    (h : (m.map Prod.fst).Nodup) : ((alistInsert m k v).map Prod.fst).Nodup := by
  induction m with
  | nil => simp [alistInsert]
  | cons kv0 rest ih =>
    obtain ⟨k3, v3⟩ := kv0
    rw [List.map_cons, List.nodup_cons] at h
    unfold alistInsert
    by_cases h3 : k3 = k
    · rw [if_pos h3, List.map_cons, List.nodup_cons]
      exact ⟨h.1, h.2⟩
    · rw [if_neg h3, List.map_cons, List.nodup_cons]
      refine ⟨?_, ih h.2⟩
      intro hmem
      rcases mem_keys_alistInsert rest k v k3 hmem with hm | hk
      · exact h.1 hm
      · exact h3 hk

/-! ## The archive rewrite under distinct entry names -/

lemma zcm_aux (arch : List ZEntry) (k : String) :
    ∀ (entries : List ZEntry) (acc : List (String × String)),
      alistLookup
        (entries.foldl
          (fun m e => alistInsert m e.filename ((zip_read arch e.filename).getD "")) acc) k
        = if k ∈ entries.map ZEntry.filename then some ((zip_read arch k).getD "")
          else alistLookup acc k := by
  intro entries
  induction entries with
  | nil => intro acc; simp
  | cons e rest ih =>
    intro acc
    simp only [List.foldl_cons]
    rw [ih]
    by_cases hk : k ∈ rest.map ZEntry.filename
    · rw [if_pos hk, if_pos (by simp [hk])]
    · rw [if_neg hk]
      by_cases hke : k = e.filename
      · subst hke
        rw [alistLookup_insert_self, if_pos (by simp)]
      · rw [alistLookup_insert_ne _ _ _ _ hke,
          if_neg (by simp [hke, hk])]

lemma zcm_lookup (arch : List ZEntry) (k : String) :
    alistLookup (zip_content_map arch) k =
      if k ∈ arch.map ZEntry.filename then some ((zip_read arch k).getD "") else none := by
  unfold zip_content_map
  rw [zcm_aux arch k arch []]
  rfl

lemma zcm_keys_sub (arch : List ZEntry) :
    ∀ kv ∈ zip_content_map arch, kv.1 ∈ arch.map ZEntry.filename := by
  have aux : ∀ (entries : List ZEntry) (acc : List (String × String)),
      ∀ kv ∈ entries.foldl
        (fun m e => alistInsert m e.filename ((zip_read arch e.filename).getD "")) acc,
        kv ∈ acc ∨ kv.1 ∈ entries.map ZEntry.filename := by
    intro entries
    induction entries with
    | nil => intro acc kv h; exact Or.inl h
    | cons e rest ih =>
      intro acc kv h
      simp only [List.foldl_cons] at h
      rcases ih _ kv h with h1 | h2
      · rcases mem_alistInsert _ _ _ kv h1 with hk | hm
        · exact Or.inr (by simp [hk])
        · exact Or.inl hm
      · exact Or.inr (by simp [h2])
  intro kv h
  rcases aux arch [] kv h with h1 | h2
  · exact absurd h1 (by simp)
  · exact h2

lemma zcm_keys_nodup (arch : List ZEntry) :
    ((zip_content_map arch).map Prod.fst).Nodup := by
  have aux : ∀ (entries : List ZEntry) (acc : List (String × String)),
      (acc.map Prod.fst).Nodup →
      ((entries.foldl
        (fun m e => alistInsert m e.filename ((zip_read arch e.filename).getD "")) acc).map
          Prod.fst).Nodup := by
    intro entries
    induction entries with
    | nil => intro acc h; exact h
    | cons e rest ih =>
      intro acc h
      simp only [List.foldl_cons]
      exact ih _ (keys_alistInsert_nodup _ _ _ h)
  exact aux arch [] (by simp)

lemma zip_read_nodup (arch : List ZEntry) (h : (arch.map ZEntry.filename).Nodup)
    (e : ZEntry) (he : e ∈ arch) :
    zip_read arch e.filename = some e.content := by
  unfold zip_read
  cases hf : arch.reverse.find? (fun x => x.filename = e.filename) with
  | none =>
    exfalso
    exact absurd (by simp : decide (e.filename = e.filename) = true)
      (List.find?_eq_none.1 hf e (List.mem_reverse.2 he))
  | some x =>
    have hx1 : x.filename = e.filename := by
      have := List.find?_some hf
      simpa using this
    have hx2 : x ∈ arch := List.mem_reverse.1 (List.mem_of_find?_eq_some hf)
    obtain rfl : x = e := List.inj_on_of_nodup_map h hx2 he hx1
    rfl

lemma emitEntries_spec (P : String → Bool) :
    ∀ (arch : List ZEntry) (data : List (String × String)),
      (arch.map ZEntry.filename).Nodup →
      (data.map Prod.fst).Nodup →
      (∀ e ∈ arch, P e.filename = true → alistLookup data e.filename = some e.content) →
      (∀ kv ∈ data, P kv.1 = true → kv.1 ∈ arch.map ZEntry.filename) →
      (emitEntries arch data).1.filter (fun e => P e.filename) =
          arch.filter (fun e => P e.filename) ∧
        ∀ kv ∈ (emitEntries arch data).2, P kv.1 = false := by
  intro arch
  induction arch with
  | nil =>
    intro data _ _ _ hkeys
    refine ⟨rfl, ?_⟩
    intro kv hkv
    cases hval : P kv.1 with
    | false => rfl
    | true => exact absurd (hkeys kv hkv hval) (by simp)
  | cons e rest ih =>
    intro data hn hdn hlook hkeys
    rw [List.map_cons, List.nodup_cons] at hn
    unfold emitEntries
    cases hl : alistLookup data e.filename with
    | none =>
      have hpe : P e.filename = false := by
        cases hval : P e.filename with
        | false => rfl
        | true =>
          rw [hlook e (List.mem_cons_self _ _) hval] at hl
          exact absurd hl (by simp)
      have hres := ih data hn.2 hdn
        (fun e2 he2 hp => hlook e2 (List.mem_cons_of_mem _ he2) hp)
        (fun kv hkv hp => by
          rcases (by simpa using hkeys kv hkv hp : kv.1 = e.filename ∨
              kv.1 ∈ rest.map ZEntry.filename) with h1 | h2
          · rw [h1, hpe] at hp; exact absurd hp (by simp)
          · exact h2)
      refine ⟨?_, hres.2⟩
      rw [hres.1, List.filter_cons_of_neg (by simp [hpe])]
    | some b =>
      have her_nodup : ((alistErase data e.filename).map Prod.fst).Nodup :=
        keys_alistErase_nodup _ _ hdn
      have hlook2 : ∀ e2 ∈ rest, P e2.filename = true →
          alistLookup (alistErase data e.filename) e2.filename = some e2.content := by
        intro e2 he2 hp
        have hne2 : e2.filename ≠ e.filename := by
          intro hh
          exact hn.1 (hh ▸ List.mem_map_of_mem _ he2)
        rw [alistLookup_erase_ne _ _ _ hne2]
        exact hlook e2 (List.mem_cons_of_mem _ he2) hp
      have hkeys2 : ∀ kv ∈ alistErase data e.filename, P kv.1 = true →
          kv.1 ∈ rest.map ZEntry.filename := by
        intro kv hkv hp
        have hkvd := mem_alistErase _ _ kv hkv
        rcases (by simpa using hkeys kv hkvd hp : kv.1 = e.filename ∨
            kv.1 ∈ rest.map ZEntry.filename) with h1 | h2
        · exact absurd h1 (mem_alistErase_key_ne _ _ hdn kv hkv)
        · exact h2
      obtain ⟨ih1, ih2⟩ := ih (alistErase data e.filename) hn.2 her_nodup hlook2 hkeys2
      refine ⟨?_, ih2⟩
      cases hval : P e.filename with
      | true =>
        have hb : b = e.content := by
          have := hlook e (List.mem_cons_self _ _) hval
          rw [hl] at this
          exact Option.some.inj this
        rw [List.filter_cons_of_pos (by simpa using hval),
          List.filter_cons_of_pos (by simpa using hval), ih1, hb]
      | false =>
        rw [List.filter_cons_of_neg (by simp [hval]),
          List.filter_cons_of_neg (by simp [hval]), ih1]

lemma replace_zip_entries_frame (tpl : List ZEntry) (b1 b2 : String)
    (h : (tpl.map ZEntry.filename).Nodup) :
    (replace_zip_entries tpl [(sheetPartName, b1), (sharedPartName, b2)]).filter
        (fun e => !(isPayloadName e.filename)) =
      tpl.filter (fun e => !(isPayloadName e.filename)) := by
  unfold replace_zip_entries
  have hdata0 : applyRepl (zip_content_map tpl) [(sheetPartName, b1), (sharedPartName, b2)]
      = alistInsert (alistInsert (zip_content_map tpl) sheetPartName b1) sharedPartName b2 := rfl
  rw [hdata0]
  set data0 := alistInsert (alistInsert (zip_content_map tpl) sheetPartName b1)
    sharedPartName b2 with hd0
  have hk_nodup : (data0.map Prod.fst).Nodup :=
    keys_alistInsert_nodup _ _ _ (keys_alistInsert_nodup _ _ _ (zcm_keys_nodup tpl))
  have hlook : ∀ e ∈ tpl, (!(isPayloadName e.filename)) = true →
      alistLookup data0 e.filename = some e.content := by
    intro e he hp
    have hne : e.filename ≠ sheetPartName ∧ e.filename ≠ sharedPartName := by
      constructor <;> intro hh <;> simp [isPayloadName, hh] at hp
    rw [hd0, alistLookup_insert_ne _ _ _ _ hne.2, alistLookup_insert_ne _ _ _ _ hne.1,
      zcm_lookup, if_pos (List.mem_map_of_mem _ he), zip_read_nodup tpl h e he]
    rfl
  have hkeys : ∀ kv ∈ data0, (!(isPayloadName kv.1)) = true →
      kv.1 ∈ tpl.map ZEntry.filename := by
    intro kv hkv hp
    rw [hd0] at hkv
    rcases mem_alistInsert _ _ _ kv hkv with h1 | h2
    · simp [isPayloadName, h1] at hp
    rcases mem_alistInsert _ _ _ kv h2 with h3 | h4
    · simp [isPayloadName, h3] at hp
    · exact zcm_keys_sub tpl kv h4
  obtain ⟨h1, h2⟩ :=
    emitEntries_spec (fun name => !(isPayloadName name)) tpl data0 h hk_nodup hlook hkeys
  rw [List.filter_append, h1]
  have hleft : ((emitEntries tpl data0).2.map
      (fun kv => (⟨kv.1, freshMeta, kv.2⟩ : ZEntry))).filter
        (fun e => !(isPayloadName e.filename)) = [] := by
    rw [List.filter_map]
    have : (emitEntries tpl data0).2.filter
        ((fun e : ZEntry => !(isPayloadName e.filename)) ∘
          (fun kv => (⟨kv.1, freshMeta, kv.2⟩ : ZEntry))) = [] := by
      rw [List.filter_eq_nil_iff]
      intro kv hkv
      simp [h2 kv hkv]
    rw [this]
    rfl
  rw [hleft, List.append_nil]

/-! ## Claim theorems: archive frame (C1) -/

/-- **C1, counterexample** — on a template archive with two distinct entries
of the same name `"a"`, the writer succeeds but the non-payload entries of
the output are not those of the template: the duplicate collapses to a
single entry carrying the last duplicate's content. -/
theorem C1_counterexample_duplicate_names :
    (write_to_template dupParse serConst dupTpl []).err = none ∧
    ¬ ((write_to_template dupParse serConst dupTpl []).output.filter
          (fun e => !(isPayloadName e.filename)) =
        dupTpl.filter (fun e => !(isPayloadName e.filename))) := by
  constructor
  · rfl
  · decide

/-- **C1, amended** — provided the template's entry names are pairwise
distinct, the archive produced at the output path agrees with the template
on every entry other than the two payload parts: same names, same content
bytes, same per-entry metadata, in the same order (and on a render failure
the output is the raw template copy, which trivially agrees). -/
theorem C1_amended_nonpayload_frame (parseXml : String → Option Xml) (ser : Xml → String)
    (tpl : List ZEntry) (records : List Record)
    (h : (tpl.map ZEntry.filename).Nodup) :
    (write_to_template parseXml ser tpl records).output.filter
        (fun e => !(isPayloadName e.filename)) =
      tpl.filter (fun e => !(isPayloadName e.filename)) := by
  unfold write_to_template
  cases hr : render_sheet parseXml tpl records with
  | error e => simp only [hr]
  | ok p =>
    obtain ⟨sx, hx⟩ := p
    simp only [hr]
    exact replace_zip_entries_frame tpl _ _ h

/-- Witness for **C1 amended** on a concrete three-entry template. -/
theorem C1_amended_nonpayload_frame_witness :
    (write_to_template dupParse serConst okTpl []).output.filter
        (fun e => !(isPayloadName e.filename)) =
      okTpl.filter (fun e => !(isPayloadName e.filename)) :=
  C1_amended_nonpayload_frame dupParse serConst okTpl [] (by decide)

/-! ## Worksheet-shape lemmas (C2) -/

lemma findChild_def (x : Xml) (tag : String) :
    x.findChild tag = x.childrenOf.find? (fun c => c.tagOf = tag) := rfl

lemma findChild_modifyFirstChild (x : Xml) (tag tag2 : String) (f : Xml → Xml) :
    (x.modifyFirstChild tag f).findChild tag2
      = (modifyFirst (fun c => c.tagOf = tag) f x.childrenOf).find?
          (fun c => c.tagOf = tag2) := by
  cases x; rfl

lemma lookup_setAttrList_self (attrs : List (String × String)) (k v : String) :
    ((setAttrList attrs k v).find? (fun kv => kv.1 = k)).map (·.2) = some v := by
  induction attrs with
  | nil =>
    show ((([(k, v)] : List (String × String)).find? (fun kv => kv.1 = k)).map (·.2)) = some v
    rw [List.find?_cons_of_pos _ (by simp)]
    rfl
  | cons kv0 rest ih =>
    obtain ⟨k2, v2⟩ := kv0
    unfold setAttrList
    by_cases h : k2 = k
    · rw [if_pos h, List.find?_cons_of_pos _ (by simp [h])]
      rfl
    · rw [if_neg h, List.find?_cons_of_neg _ (by simp [h])]
      exact ih

lemma getAttr_setAttr_self (x : Xml) (k v : String) :
    getAttr (x.setAttr k v) k = some v := by
  cases x
  exact lookup_setAttrList_self _ _ _

lemma qn_sheetData_ne_dimension : qn "sheetData" ≠ qn "dimension" := by decide

lemma findChild_modify_other (x : Xml) (tag tag2 : String) (f : Xml → Xml)
    (hne : tag ≠ tag2) (hf : ∀ c, c.tagOf = tag → (f c).tagOf = tag) :
    (x.modifyFirstChild tag f).findChild tag2 = x.findChild tag2 := by
  rw [findChild_modifyFirstChild, findChild_def]
  apply find?_modifyFirst_other
  intro c hc
  simp only [decide_eq_true_eq] at hc
  constructor
  · simp only [decide_eq_false_iff_not, hc]
    exact hne
  · simp only [decide_eq_false_iff_not, hf c hc]
    exact hne

lemma findChild_modify_self (x : Xml) (tag : String) (f : Xml → Xml)
    (hf : ∀ c, c.tagOf = tag → (f c).tagOf = tag) {c0 : Xml}
    (h : x.findChild tag = some c0) :
    (x.modifyFirstChild tag f).findChild tag = some (f c0) := by
  rw [findChild_modifyFirstChild]
  refine find?_modifyFirst_self ?_ _ c0 h
  intro c hc
  simp only [decide_eq_true_eq] at hc ⊢
  exact hf c hc

lemma buildRowCells_len (rowIdx : Nat) :
    ∀ (pairs : List (String × String)) (st : SSState),
      ((buildRowCells st rowIdx pairs).2).length = pairs.length := by
  intro pairs
  induction pairs with
  | nil => intro st; rfl
  | cons pv rest ih =>
    intro st
    obtain ⟨letter, v⟩ := pv
    simp only [buildRowCells, List.length_cons]
    rw [ih]

lemma buildRows_len : ∀ (records : List Record) (st : SSState) (i : Nat),
    ((buildRows st i records).2).length = records.length := by
  intro records
  induction records with
  | nil => intro st i; rfl
  | cons rec rest ih =>
    intro st i
    simp only [buildRows, List.length_cons]
    rw [ih]

lemma buildRows_get? : ∀ (records : List Record) (st : SSState) (i j : Nat) (rec : Record),
    records.get? j = some rec →
    ∃ rowEl, ((buildRows st i records).2).get? j = some rowEl ∧
      rowEl.tagOf = qn "row" ∧
      getAttr rowEl "r" = some (toString (i + j)) ∧
      getAttr rowEl "spans" = some "1:7" ∧
      rowEl.childrenOf.length = 7 := by
  intro records
  induction records with
  | nil => intro st i j rec h; exact absurd h (by simp)
  | cons rec0 rest ih =>
    intro st i j rec h
    cases j with
    | zero =>
      refine ⟨(buildRow st i rec0).2, rfl, rfl, rfl, rfl, ?_⟩
      show ((buildRowCells st i (col_letters.zip (recordValues rec0))).2).length = 7
      rw [buildRowCells_len]
      rfl
    | succ j2 =>
      obtain ⟨rowEl, h1, h2, h3, h4, h5⟩ :=
        ih (buildRow st i rec0).1 (i + 1) j2 rec (by simpa using h)
      refine ⟨rowEl, ?_, h2, ?_, h4, h5⟩
      · show ((buildRow st i rec0).2 ::
          (buildRows (buildRow st i rec0).1 (i + 1) rest).2).get? (j2 + 1) = some rowEl
        simpa using h1
      · rw [h3]
        have heq : i + 1 + j2 = i + (j2 + 1) := by omega
        rw [heq]

/-- **C2** — the rendered worksheet's `sheetData` holds exactly
`1 + len(records)` rows: the template's header row followed by one
synthesized row per record, with row references `2, 3, …` in record order
and seven cells each; when the template declares a dimension, its reference
becomes `A1:G(1 + len(records))` — row 1 only for an empty record list. -/
theorem C2_sheet_shape (sheetRoot sharedRoot : Xml) (records : List Record)
    (sheet' shared' : Xml)
    (h : render_sheet_core sheetRoot sharedRoot records = .ok (sheet', shared')) :
    ((sheet'.findChild (qn "sheetData")).map (fun sd => sd.childrenOf.length)
        = some (1 + records.length)) ∧
    ((sheet'.findChild (qn "sheetData")).bind (fun sd => sd.childrenOf.head?)
        = (sheetRoot.findChild (qn "sheetData")).bind
            (fun sd => (sd.findAll (qn "row")).head?)) ∧
    (∀ i, i < records.length →
      ((synthRow sheet' i).map Xml.tagOf = some (qn "row") ∧
       (synthRow sheet' i).bind (fun r => getAttr r "r") = some (toString (i + 2)) ∧
       (synthRow sheet' i).bind (fun r => getAttr r "spans") = some "1:7" ∧
       (synthRow sheet' i).map (fun r => r.childrenOf.length) = some 7)) ∧
    (∀ dim0, sheetRoot.findChild (qn "dimension") = some dim0 →
      (sheet'.findChild (qn "dimension")).bind (fun d => getAttr d "ref")
        = some ("A1:G" ++ toString (records.length + 1))) := by
  unfold render_sheet_core at h
  cases hsd : (ensureNs sheetRoot).findChild (qn "sheetData") with
  | none => rw [hsd] at h; exact absurd h (by simp)
  | some sd =>
    simp only [hsd] at h
    cases hrows : sd.findAll (qn "row") with
    | nil => rw [hrows] at h; exact absurd h (by simp)
    | cons headerRow tailRows =>
      simp only [hrows] at h
      cases hsi : siTexts sharedRoot with
      | none => rw [hsi] at h; exact absurd h (by simp)
      | some pool0 =>
        simp only [hsi] at h
        cases hcnt : sstCount sharedRoot pool0 with
        | none => rw [hcnt] at h; exact absurd h (by simp)
        | some total0 =>
          simp only [hcnt, Except.ok.injEq, Prod.mk.injEq] at h
          obtain ⟨hsheet, -⟩ := h
          subst hsheet
          set rowEls := (buildRows ⟨pool0, buildIndex pool0, total0⟩ 2 records).2 with hrowEls
          set newSD := Xml.elem (qn "sheetData") [] none (headerRow :: rowEls) with hnewSD
          have e1 : Xml.findChild
              ((ensureNs sheetRoot).modifyFirstChild (qn "sheetData") (fun _ => newSD))
              (qn "sheetData") = some newSD :=
            findChild_modify_self (ensureNs sheetRoot) (qn "sheetData")
              (fun _ => newSD) (fun c hc => rfl) hsd
          have e2 : Xml.findChild
              (((ensureNs sheetRoot).modifyFirstChild (qn "sheetData")
                (fun _ => newSD)).modifyFirstChild (qn "dimension")
                (fun dim => dim.setAttr "ref"
                  ("A1:G" ++ toString (if records.isEmpty then 1 else records.length + 1))))
              (qn "sheetData") = some newSD := by
            rw [findChild_modify_other
              ((ensureNs sheetRoot).modifyFirstChild (qn "sheetData") (fun _ => newSD))
              (qn "dimension") (qn "sheetData")
              (fun dim => dim.setAttr "ref"
                ("A1:G" ++ toString (if records.isEmpty then 1 else records.length + 1)))
              (fun hh => qn_sheetData_ne_dimension hh.symm)
              (fun c hc => by rw [tagOf_setAttr]; exact hc)]
            exact e1
          refine ⟨?_, ?_, ?_, ?_⟩
          · rw [e2]
            show some ((headerRow :: rowEls).length) = some (1 + records.length)
            rw [List.length_cons, hrowEls, buildRows_len, Nat.add_comm]
          · rw [e2, ← findChild_ensureNs sheetRoot (qn "sheetData"), hsd]
            show (headerRow :: rowEls).head? = (sd.findAll (qn "row")).head?
            rw [hrows]
            rfl
          · intro i hi
            have hget : ∃ rec, records.get? i = some rec := by
              cases hr : records.get? i with
              | none => exact absurd (List.get?_eq_none.1 hr) (Nat.not_le.mpr hi)
              | some rec => exact ⟨rec, rfl⟩
            obtain ⟨rec, hrec⟩ := hget
            obtain ⟨rowEl, g1, g2, g3, g4, g5⟩ :=
              buildRows_get? records ⟨pool0, buildIndex pool0, total0⟩ 2 i rec hrec
            have hsr : synthRow (((ensureNs sheetRoot).modifyFirstChild (qn "sheetData")
                (fun _ => newSD)).modifyFirstChild (qn "dimension")
                (fun dim => dim.setAttr "ref"
                  ("A1:G" ++ toString (if records.isEmpty then 1 else records.length + 1))))
                i = some rowEl := by
              unfold synthRow
              rw [e2]
              show (headerRow :: rowEls).get? (i + 1) = some rowEl
              simpa using g1
            rw [hsr]
            refine ⟨by simpa using g2, ?_, by simpa using g4, by simpa using g5⟩
            show getAttr rowEl "r" = some (toString (i + 2))
            rw [g3, Nat.add_comm 2 i]
          · intro dim0 hdim0
            have d1 : Xml.findChild
                ((ensureNs sheetRoot).modifyFirstChild (qn "sheetData") (fun _ => newSD))
                (qn "dimension") = some dim0 := by
              rw [findChild_modify_other (ensureNs sheetRoot) (qn "sheetData")
                (qn "dimension") (fun _ => newSD) qn_sheetData_ne_dimension
                (fun c hc => rfl)]
              rw [findChild_ensureNs]
              exact hdim0
            have d2 : Xml.findChild
                (((ensureNs sheetRoot).modifyFirstChild (qn "sheetData")
                  (fun _ => newSD)).modifyFirstChild (qn "dimension")
                  (fun dim => dim.setAttr "ref"
                    ("A1:G" ++ toString (if records.isEmpty then 1 else records.length + 1))))
                (qn "dimension")
                = some (dim0.setAttr "ref"
                    ("A1:G" ++ toString (if records.isEmpty then 1 else records.length + 1))) :=
              findChild_modify_self
                ((ensureNs sheetRoot).modifyFirstChild (qn "sheetData") (fun _ => newSD))
                (qn "dimension")
                (fun dim => dim.setAttr "ref"
                  ("A1:G" ++ toString (if records.isEmpty then 1 else records.length + 1)))
                (fun c hc => by rw [tagOf_setAttr]; exact hc) d1
            rw [d2]
            show getAttr (dim0.setAttr "ref"
              ("A1:G" ++ toString (if records.isEmpty then 1 else records.length + 1))) "ref"
              = some ("A1:G" ++ toString (records.length + 1))
            rw [getAttr_setAttr_self]
            congr 2
            cases records <;> simp

/-- Witness for C2 on a concrete one-record template: the rendered sheet has
two rows under `sheetData`, the synthesized row carries reference "2", and the
dimension reference becomes "A1:G2". -/
theorem C2_sheet_shape_witness :
    ((Xml.findChild c2Out.1 (qn "sheetData")).map (fun sd => sd.childrenOf.length)
        = some (1 + ([c2Rec] : List Record).length)) ∧
    ((synthRow c2Out.1 0).bind (fun r => getAttr r "r") = some (toString (0 + 2))) ∧
    ((Xml.findChild c2Out.1 (qn "dimension")).bind (fun d => getAttr d "ref")
        = some ("A1:G" ++ toString (([c2Rec] : List Record).length + 1))) := by
  have hh := C2_sheet_shape c2Sheet c2Shared [c2Rec] c2Out.1 c2Out.2 rfl
  exact ⟨hh.1, (hh.2.2.1 0 (by decide)).2.1, hh.2.2.2 c2Dimension rfl⟩

/-! ## Shared-string pool: index and first-occurrence lemmas -/

lemma lookup_foldl_insert : ∀ (ps : List (Nat × String)) (m : List (String × Nat)) (v : String),
    alistLookup (ps.foldl (fun m2 p => alistInsert m2 p.2 p.1) m) v =
      match ps.reverse.find? (fun p => p.2 = v) with
      | some p => some p.1
      | none => alistLookup m v
  | [], m, v => rfl
  | p :: rest, m, v => by
    show alistLookup (rest.foldl (fun m2 q => alistInsert m2 q.2 q.1) (alistInsert m p.2 p.1)) v
      = _
    rw [lookup_foldl_insert rest (alistInsert m p.2 p.1) v]
    have hrev : (p :: rest).reverse = rest.reverse ++ [p] := by simp
    rw [hrev, List.find?_append]
    cases hfr : rest.reverse.find? (fun q => q.2 = v) with
    | some q => rfl
    | none =>
      by_cases hp : p.2 = v
      · rw [List.find?_cons_of_pos _ (by simp [hp])]
        show alistLookup (alistInsert m p.2 p.1) v = some p.1
        rw [← hp]
        exact alistLookup_insert_self m p.2 p.1
      · rw [List.find?_cons_of_neg _ (by simp [hp])]
        show alistLookup (alistInsert m p.2 p.1) v = alistLookup m v
        exact alistLookup_insert_ne m p.2 p.1 v (fun hh => hp hh.symm)

lemma buildIndex_lookup (pool0 : List String) (v : String) :
    alistLookup (buildIndex pool0) v =
      (pool0.enum.reverse.find? (fun p => p.2 = v)).map (fun p => p.1) := by
  show alistLookup (pool0.enum.foldl (fun m p => alistInsert m p.2 p.1) []) v = _
  rw [lookup_foldl_insert]
  cases hf : pool0.enum.reverse.find? (fun p => p.2 = v) with
  | some p => rfl
  | none => rfl

lemma buildIndex_lookup_get (pool0 : List String) (v : String) (k : Nat)
    (h : alistLookup (buildIndex pool0) v = some k) : pool0.get? k = some v := by
  rw [buildIndex_lookup] at h
  obtain ⟨p, hp, hpk⟩ := Option.map_eq_some'.1 h
  have hmem : p ∈ pool0.enum := by
    have := List.mem_of_find?_eq_some hp
    simpa using this
  have hpv : p.2 = v := by simpa using List.find?_some hp
  have hg : pool0.get? p.1 = some p.2 := List.mem_enum_iff_get?.1 hmem
  rw [← hpk, hg, hpv]

lemma buildIndex_lookup_of_mem (pool0 : List String) (v : String) (h : v ∈ pool0) :
    ∃ k, alistLookup (buildIndex pool0) v = some k ∧ pool0.get? k = some v := by
  obtain ⟨n, hn⟩ := List.mem_iff_get?.1 h
  have hmem : ((n, v) : Nat × String) ∈ pool0.enum.reverse := by
    rw [List.mem_reverse]
    exact List.mem_enum_iff_get?.2 hn
  have hsome : (pool0.enum.reverse.find? (fun p => p.2 = v)).isSome = true :=
    List.find?_isSome.2 ⟨(n, v), hmem, by simp⟩
  cases hf : pool0.enum.reverse.find? (fun p => p.2 = v) with
  | none => rw [hf] at hsome; exact absurd hsome (by simp)
  | some p =>
    refine ⟨p.1, ?_, ?_⟩
    · rw [buildIndex_lookup, hf]
      rfl
    · exact buildIndex_lookup_get pool0 v p.1 (by rw [buildIndex_lookup, hf]; rfl)

lemma buildIndex_lookup_of_not_mem (pool0 : List String) (v : String) (h : v ∉ pool0) :
    alistLookup (buildIndex pool0) v = none := by
  rw [buildIndex_lookup]
  have hnone : pool0.enum.reverse.find? (fun p => p.2 = v) = none := by
    rw [List.find?_eq_none]
    intro p hp hpv
    have hpv2 : p.2 = v := by simpa using hpv
    have hmem : p ∈ pool0.enum := by simpa using hp
    have hg := List.mem_enum_iff_get?.1 hmem
    exact h (by rw [← hpv2]; exact List.get?_mem hg)
  rw [hnone]
  rfl

lemma firstIdxOf_get : ∀ (l : List String) (v : String) (j : Nat),
    firstIdxOf l v = some j → l.get? j = some v
  | [], v, j, h => absurd h (by simp [firstIdxOf])
  | x :: rest, v, j, h => by
    unfold firstIdxOf at h
    by_cases hx : x = v
    · rw [if_pos hx] at h
      have h0 : 0 = j := by simpa using h
      rw [← h0]
      show some x = some v
      rw [hx]
    · rw [if_neg hx] at h
      obtain ⟨j2, hj2, hj2e⟩ := Option.map_eq_some'.1 h
      rw [← hj2e]
      show rest.get? j2 = some v
      exact firstIdxOf_get rest v j2 hj2

lemma firstIdxOf_eq_none : ∀ (l : List String) (v : String),
    firstIdxOf l v = none ↔ v ∉ l
  | [], v => by simp [firstIdxOf]
  | x :: rest, v => by
    unfold firstIdxOf
    by_cases hx : x = v
    · subst hx
      rw [if_pos rfl]
      simp
    · rw [if_neg hx, Option.map_eq_none', firstIdxOf_eq_none rest v]
      constructor
      · intro hnr hm
        rcases List.mem_cons.1 hm with h1 | h2
        · exact hx h1.symm
        · exact hnr h2
      · intro hnm hr
        exact hnm (List.mem_cons.2 (Or.inr hr))

lemma firstIdxOf_append_left : ∀ (l l2 : List String) (v : String) (j : Nat),
    firstIdxOf l v = some j → firstIdxOf (l ++ l2) v = some j
  | [], _, v, j, h => absurd h (by simp [firstIdxOf])
  | x :: rest, l2, v, j, h => by
    rw [List.cons_append]
    unfold firstIdxOf at h ⊢
    by_cases hx : x = v
    · rw [if_pos hx] at h ⊢
      exact h
    · rw [if_neg hx] at h ⊢
      obtain ⟨j2, hj2, hj2e⟩ := Option.map_eq_some'.1 h
      rw [firstIdxOf_append_left rest l2 v j2 hj2, ← hj2e]
      rfl

lemma firstIdxOf_append_ne : ∀ (l : List String) (w v : String), w ≠ v →
    firstIdxOf (l ++ [w]) v = firstIdxOf l v
  | [], w, v, h => by
    show firstIdxOf [w] v = none
    unfold firstIdxOf
    rw [if_neg h]
    rfl
  | x :: rest, w, v, h => by
    rw [List.cons_append]
    unfold firstIdxOf
    by_cases hx : x = v
    · rw [if_pos hx, if_pos hx]
    · rw [if_neg hx, if_neg hx, firstIdxOf_append_ne rest w v h]

lemma firstIdxOf_append_self : ∀ (l : List String) (v : String), v ∉ l →
    firstIdxOf (l ++ [v]) v = some l.length
  | [], v, _ => by
    show firstIdxOf [v] v = some 0
    unfold firstIdxOf
    rw [if_pos rfl]
  | x :: rest, v, h => by
    rw [List.cons_append]
    unfold firstIdxOf
    have hx : ¬ x = v := fun hh => h (by rw [← hh]; exact List.mem_cons_self x rest)
    rw [if_neg hx,
      firstIdxOf_append_self rest v (fun hr => h (List.mem_cons.2 (Or.inr hr)))]
    rfl

lemma firstIdxOf_nodup_get : ∀ (l : List String), l.Nodup → ∀ (j : Nat) (v : String),
    l.get? j = some v → firstIdxOf l v = some j
  | [], _, j, v, h => absurd h (by simp)
  | x :: rest, hnd, j, v, h => by
    obtain ⟨hx, hrest⟩ := List.nodup_cons.1 hnd
    cases j with
    | zero =>
      have hxv : x = v := by simpa using h
      unfold firstIdxOf
      rw [if_pos hxv]
    | succ j2 =>
      have hr : rest.get? j2 = some v := h
      have hvm : v ∈ rest := List.get?_mem hr
      have hxv : ¬ x = v := fun hh => hx (by rw [hh]; exact hvm)
      unfold firstIdxOf
      rw [if_neg hxv, firstIdxOf_nodup_get rest hrest j2 v hr]
      rfl

/-! ## Shared-string pool: the appended-strings fold -/

lemma appendedStrings_snoc (pool0 vs : List String) (v : String) :
    appendedStrings pool0 (vs ++ [v]) =
      if v ∈ pool0 ∨ v ∈ appendedStrings pool0 vs then appendedStrings pool0 vs
      else appendedStrings pool0 vs ++ [v] := by
  unfold appendedStrings
  rw [List.foldl_append]
  rfl

lemma appFold_sub (pool0 : List String) : ∀ (vs acc : List String),
    acc ⊆ vs.foldl (fun acc2 u => if u ∈ pool0 ∨ u ∈ acc2 then acc2 else acc2 ++ [u]) acc
  | [], acc => List.Subset.refl acc
  | u :: rest, acc => by
    have hstep : acc ⊆ (if u ∈ pool0 ∨ u ∈ acc then acc else acc ++ [u]) := by
      by_cases hc : u ∈ pool0 ∨ u ∈ acc
      · rw [if_pos hc]
        exact List.Subset.refl acc
      · rw [if_neg hc]
        exact List.subset_append_left acc [u]
    exact hstep.trans (appFold_sub pool0 rest _)

lemma appFold_mem (pool0 : List String) : ∀ (vs acc : List String) (v : String), v ∈ vs →
    v ∈ pool0 ∨
      v ∈ vs.foldl (fun acc2 u => if u ∈ pool0 ∨ u ∈ acc2 then acc2 else acc2 ++ [u]) acc
  | [], _, v, hv => absurd hv (by simp)
  | u :: rest, acc, v, hv => by
    rcases List.mem_cons.1 hv with h1 | h2
    · subst h1
      by_cases hc : v ∈ pool0
      · exact Or.inl hc
      · right
        have hvf : v ∈ (if v ∈ pool0 ∨ v ∈ acc then acc else acc ++ [v]) := by
          by_cases hca : v ∈ acc
          · rw [if_pos (Or.inr hca)]
            exact hca
          · rw [if_neg (fun hor => hor.elim hc hca)]
            exact List.mem_append.2 (Or.inr (List.mem_singleton.2 rfl))
        exact appFold_sub pool0 rest _ hvf
    · exact appFold_mem pool0 rest (if u ∈ pool0 ∨ u ∈ acc then acc else acc ++ [u]) v h2

lemma appFold_not_mem (pool0 : List String) : ∀ (vs acc : List String),
    (∀ w ∈ acc, w ∉ pool0) →
    ∀ w ∈ vs.foldl (fun acc2 u => if u ∈ pool0 ∨ u ∈ acc2 then acc2 else acc2 ++ [u]) acc,
      w ∉ pool0
  | [], _, hacc => hacc
  | u :: rest, acc, hacc => by
    have hstep : ∀ w ∈ (if u ∈ pool0 ∨ u ∈ acc then acc else acc ++ [u]), w ∉ pool0 := by
      by_cases hc : u ∈ pool0 ∨ u ∈ acc
      · rw [if_pos hc]
        exact hacc
      · rw [if_neg hc]
        intro w hw
        rcases List.mem_append.1 hw with h1 | h2
        · exact hacc w h1
        · have hwu : w = u := by simpa using h2
          rw [hwu]
          exact fun hp => hc (Or.inl hp)
    exact appFold_not_mem pool0 rest _ hstep

lemma appFold_nodup (pool0 : List String) : ∀ (vs acc : List String), acc.Nodup →
    (vs.foldl (fun acc2 u => if u ∈ pool0 ∨ u ∈ acc2 then acc2 else acc2 ++ [u]) acc).Nodup
  | [], _, h => h
  | u :: rest, acc, h => by
    have hstep : (if u ∈ pool0 ∨ u ∈ acc then acc else acc ++ [u]).Nodup := by
      by_cases hc : u ∈ pool0 ∨ u ∈ acc
      · rw [if_pos hc]
        exact h
      · rw [if_neg hc]
        rw [List.nodup_append]
        refine ⟨h, List.nodup_singleton u, ?_⟩
        intro w hw hw2
        have hwu : w = u := by simpa using hw2
        rw [hwu] at hw
        exact hc (Or.inr hw)
    exact appFold_nodup pool0 rest _ hstep

lemma mem_appendedStrings (pool0 vs : List String) (v : String) (h : v ∈ vs) :
    v ∈ pool0 ∨ v ∈ appendedStrings pool0 vs :=
  appFold_mem pool0 vs [] v h

lemma appendedStrings_not_mem_pool (pool0 vs : List String) :
    ∀ w ∈ appendedStrings pool0 vs, w ∉ pool0 :=
  appFold_not_mem pool0 vs [] (by simp)

lemma appendedStrings_nodup (pool0 vs : List String) :
    (appendedStrings pool0 vs).Nodup :=
  appFold_nodup pool0 vs [] List.nodup_nil

lemma appendedStrings_prefix (pool0 : List String) : ∀ (ws vs : List String),
    ∃ ext, appendedStrings pool0 (vs ++ ws) = appendedStrings pool0 vs ++ ext
  | [], vs => ⟨[], by simp⟩
  | w :: rest, vs => by
    obtain ⟨ext2, hext2⟩ := appendedStrings_prefix pool0 rest (vs ++ [w])
    have hassoc : vs ++ w :: rest = (vs ++ [w]) ++ rest := by simp
    rw [hassoc, hext2, appendedStrings_snoc]
    by_cases hc : w ∈ pool0 ∨ w ∈ appendedStrings pool0 vs
    · rw [if_pos hc]
      exact ⟨ext2, rfl⟩
    · rw [if_neg hc]
      exact ⟨w :: ext2, by simp⟩

/-! ## Shared-string pool: index resolution -/

lemma resolveIdx_mono (pool0 vs ext : List String) (v : String) (k : Nat)
    (h : resolveIdx pool0 (appendedStrings pool0 vs) v = some k) :
    resolveIdx pool0 (appendedStrings pool0 (vs ++ ext)) v = some k := by
  obtain ⟨e2, he2⟩ := appendedStrings_prefix pool0 ext vs
  rw [he2]
  unfold resolveIdx at h ⊢
  cases hb : alistLookup (buildIndex pool0) v with
  | some k2 =>
    rw [hb] at h
    exact h
  | none =>
    rw [hb] at h
    have h2 : Option.map (fun j => pool0.length + j)
        (firstIdxOf (appendedStrings pool0 vs) v) = some k := h
    obtain ⟨j, hj, hje⟩ := Option.map_eq_some'.1 h2
    show Option.map (fun j => pool0.length + j)
        (firstIdxOf (appendedStrings pool0 vs ++ e2) v) = some k
    rw [firstIdxOf_append_left _ e2 v j hj, ← hje]
    rfl

lemma resolveIdx_get (pool0 news : List String) (v : String) (k : Nat)
    (h : resolveIdx pool0 news v = some k) : (pool0 ++ news).get? k = some v := by
  unfold resolveIdx at h
  cases hb : alistLookup (buildIndex pool0) v with
  | some k2 =>
    rw [hb] at h
    have h2 : some k2 = some k := h
    have hk : k2 = k := by simpa using h2
    have hg : pool0.get? k = some v := buildIndex_lookup_get pool0 v k (by rw [hb, hk])
    have hlt : k < pool0.length := (List.get?_eq_some.1 hg).1
    rw [List.get?_append hlt]
    exact hg
  | none =>
    rw [hb] at h
    have h2 : Option.map (fun j => pool0.length + j) (firstIdxOf news v) = some k := h
    obtain ⟨j, hj, hje⟩ := Option.map_eq_some'.1 h2
    rw [← hje, List.get?_append_right (Nat.le_add_right _ _)]
    have hsub : pool0.length + j - pool0.length = j := by omega
    rw [hsub]
    exact firstIdxOf_get news v j hj

lemma resolveIdx_of_template (pool0 news : List String) (v : String) (h : v ∈ pool0) :
    resolveIdx pool0 news v = alistLookup (buildIndex pool0) v := by
  obtain ⟨k, hk, -⟩ := buildIndex_lookup_of_mem pool0 v h
  unfold resolveIdx
  rw [hk]

lemma resolveIdx_of_new (pool0 news : List String) (v : String) (j : Nat)
    (hd : ∀ w ∈ news, w ∉ pool0) (hnd : news.Nodup) (h : news.get? j = some v) :
    resolveIdx pool0 news v = some (pool0.length + j) := by
  have hvm : v ∈ news := List.get?_mem h
  have hvp : v ∉ pool0 := hd v hvm
  unfold resolveIdx
  rw [buildIndex_lookup_of_not_mem pool0 v hvp, firstIdxOf_nodup_get news hnd j v h]
  rfl

/-! ## Shared-string pool: the interning invariant -/

lemma SSInv_init (pool0 : List String) (total0 : Int) :
    SSInv pool0 total0 [] ⟨pool0, buildIndex pool0, total0⟩ := by
  refine ⟨?_, by simp, ?_⟩
  · show pool0 = pool0 ++ appendedStrings pool0 []
    simp [appendedStrings]
  · intro w
    show alistLookup (buildIndex pool0) w = resolveIdx pool0 (appendedStrings pool0 []) w
    unfold resolveIdx
    cases hb : alistLookup (buildIndex pool0) w with
    | some k => rfl
    | none => rfl

lemma internString_inv (pool0 : List String) (total0 : Int) (vs : List String)
    (st : SSState) (v : String) (hinv : SSInv pool0 total0 vs st) :
    SSInv pool0 total0 (vs ++ [v]) (internString st v).1 ∧
    some (internString st v).2
      = resolveIdx pool0 (appendedStrings pool0 (vs ++ [v])) v := by
  obtain ⟨hpool, htotal, hidx⟩ := hinv
  unfold internString
  cases hl : alistLookup st.index v with
  | some k =>
    have hres : resolveIdx pool0 (appendedStrings pool0 vs) v = some k := by
      rw [← hidx v]
      exact hl
    have hmem : v ∈ pool0 ∨ v ∈ appendedStrings pool0 vs := by
      unfold resolveIdx at hres
      cases hb : alistLookup (buildIndex pool0) v with
      | some k2 =>
        exact Or.inl (List.get?_mem (buildIndex_lookup_get pool0 v k2 hb))
      | none =>
        rw [hb] at hres
        have hres2 : Option.map (fun j => pool0.length + j)
            (firstIdxOf (appendedStrings pool0 vs) v) = some k := hres
        obtain ⟨j, hj, -⟩ := Option.map_eq_some'.1 hres2
        exact Or.inr (List.get?_mem (firstIdxOf_get _ v j hj))
    have happ : appendedStrings pool0 (vs ++ [v]) = appendedStrings pool0 vs := by
      rw [appendedStrings_snoc, if_pos hmem]
    refine ⟨⟨?_, ?_, ?_⟩, ?_⟩
    · show st.pool = pool0 ++ appendedStrings pool0 (vs ++ [v])
      rw [happ]
      exact hpool
    · show st.total + 1 = total0 + ((vs ++ [v]).length : Int)
      rw [htotal, List.length_append]
      push_cast [List.length_singleton]
      ring
    · intro w
      show alistLookup st.index w = resolveIdx pool0 (appendedStrings pool0 (vs ++ [v])) w
      rw [happ]
      exact hidx w
    · show some k = resolveIdx pool0 (appendedStrings pool0 (vs ++ [v])) v
      rw [happ]
      exact hres.symm
  | none =>
    have hres : resolveIdx pool0 (appendedStrings pool0 vs) v = none := by
      rw [← hidx v]
      exact hl
    have hb : alistLookup (buildIndex pool0) v = none := by
      cases hb2 : alistLookup (buildIndex pool0) v with
      | none => rfl
      | some k2 =>
        unfold resolveIdx at hres
        rw [hb2] at hres
        exact absurd hres (by simp)
    have hf : firstIdxOf (appendedStrings pool0 vs) v = none := by
      unfold resolveIdx at hres
      rw [hb] at hres
      have hres2 : Option.map (fun j => pool0.length + j)
          (firstIdxOf (appendedStrings pool0 vs) v) = none := hres
      exact Option.map_eq_none'.1 hres2
    have hvp : v ∉ pool0 := by
      intro hm
      obtain ⟨k2, hk2, -⟩ := buildIndex_lookup_of_mem pool0 v hm
      rw [hb] at hk2
      exact absurd hk2 (by simp)
    have hvn : v ∉ appendedStrings pool0 vs := (firstIdxOf_eq_none _ _).1 hf
    have happ : appendedStrings pool0 (vs ++ [v]) = appendedStrings pool0 vs ++ [v] := by
      rw [appendedStrings_snoc, if_neg (fun hc => hc.elim hvp hvn)]
    have hnewlen : st.pool.length = pool0.length + (appendedStrings pool0 vs).length := by
      rw [hpool, List.length_append]
    have hself : resolveIdx pool0 (appendedStrings pool0 vs ++ [v]) v
        = some st.pool.length := by
      unfold resolveIdx
      rw [hb, firstIdxOf_append_self _ v hvn, hnewlen]
      rfl
    refine ⟨⟨?_, ?_, ?_⟩, ?_⟩
    · show st.pool ++ [v] = pool0 ++ appendedStrings pool0 (vs ++ [v])
      rw [happ, hpool, List.append_assoc]
    · show st.total + 1 = total0 + ((vs ++ [v]).length : Int)
      rw [htotal, List.length_append]
      push_cast [List.length_singleton]
      ring
    · intro w
      show alistLookup (alistInsert st.index v st.pool.length) w
        = resolveIdx pool0 (appendedStrings pool0 (vs ++ [v])) w
      rw [happ]
      by_cases hw : w = v
      · subst hw
        rw [alistLookup_insert_self, hself]
      · rw [alistLookup_insert_ne st.index v st.pool.length w hw, hidx w]
        unfold resolveIdx
        cases hbw : alistLookup (buildIndex pool0) w with
        | some k2 => rfl
        | none =>
          show Option.map (fun j => pool0.length + j)
              (firstIdxOf (appendedStrings pool0 vs) w)
            = Option.map (fun j => pool0.length + j)
                (firstIdxOf (appendedStrings pool0 vs ++ [v]) w)
          rw [firstIdxOf_append_ne _ v w (fun hh => hw hh.symm)]
    · show some st.pool.length = resolveIdx pool0 (appendedStrings pool0 (vs ++ [v])) v
      rw [happ, hself]

lemma buildCell_inv (pool0 : List String) (total0 : Int) (vs : List String)
    (st : SSState) (letter : String) (rowIdx : Nat) (v : String)
    (hinv : SSInv pool0 total0 vs st) :
    SSInv pool0 total0 (vs ++ (if v = "" then [] else [v]))
        (buildCell st letter rowIdx v).1 ∧
    (v ≠ "" → ∃ k, resolveIdx pool0 (appendedStrings pool0 (vs ++ [v])) v = some k ∧
      cellSharedIdx (buildCell st letter rowIdx v).2 = some (toString k)) := by
  by_cases hv : v = ""
  · rw [if_pos hv]
    unfold buildCell
    rw [if_pos hv]
    refine ⟨by simpa using hinv, fun hne => absurd hv hne⟩
  · rw [if_neg hv]
    unfold buildCell
    rw [if_neg hv]
    obtain ⟨hinv2, hret⟩ := internString_inv pool0 total0 vs st v hinv
    exact ⟨hinv2, fun _ => ⟨(internString st v).2, hret.symm, rfl⟩⟩

lemma buildRowCells_inv (pool0 : List String) (total0 : Int) (rowIdx : Nat) :
    ∀ (cells : List (String × String)) (vs : List String) (st : SSState),
      SSInv pool0 total0 vs st →
      SSInv pool0 total0 (vs ++ (cells.map Prod.snd).filter (fun w => w ≠ ""))
          (buildRowCells st rowIdx cells).1 ∧
      ∀ (c : Nat) (letter v : String), cells.get? c = some (letter, v) → v ≠ "" →
        ∃ k, resolveIdx pool0
            (appendedStrings pool0 (vs ++ (cells.map Prod.snd).filter (fun w => w ≠ ""))) v
            = some k ∧
          ((buildRowCells st rowIdx cells).2.get? c).bind cellSharedIdx
            = some (toString k) := by
  intro cells
  induction cells with
  | nil =>
    intro vs st hinv
    refine ⟨by simpa using hinv, ?_⟩
    intro c letter v hc
    exact absurd hc (by simp)
  | cons cell rest ih =>
    obtain ⟨letter0, v0⟩ := cell
    intro vs st hinv
    obtain ⟨hc1, hc2⟩ := buildCell_inv pool0 total0 vs st letter0 rowIdx v0 hinv
    obtain ⟨hr1, hr2⟩ :=
      ih (vs ++ (if v0 = "" then [] else [v0])) (buildCell st letter0 rowIdx v0).1 hc1
    have hlist : (vs ++ (if v0 = "" then [] else [v0])) ++
        (rest.map Prod.snd).filter (fun w => w ≠ "") =
        vs ++ (((letter0, v0) :: rest).map Prod.snd).filter (fun w => w ≠ "") := by
      rw [List.map_cons, List.filter_cons]
      by_cases hv0 : v0 = ""
      · rw [if_pos hv0, if_neg (by simp [hv0])]
        simp
      · rw [if_neg hv0, if_pos (by simp [hv0])]
        simp
    constructor
    · rw [← hlist]
      exact hr1
    · intro c letter v hc hv
      cases c with
      | zero =>
        have hl0 : letter0 = letter ∧ v0 = v := by simpa using hc
        obtain ⟨he1, he2⟩ := hl0
        subst he1
        subst he2
        obtain ⟨k, hk, hcell⟩ := hc2 hv
        refine ⟨k, ?_, ?_⟩
        · rw [← hlist, if_neg hv]
          exact resolveIdx_mono pool0 (vs ++ [v0])
            ((rest.map Prod.snd).filter (fun w => w ≠ "")) v0 k hk
        · show cellSharedIdx (buildCell st letter0 rowIdx v0).2 = some (toString k)
          exact hcell
      | succ c2 =>
        have hc2t : rest.get? c2 = some (letter, v) := hc
        obtain ⟨k, hk, hcell⟩ := hr2 c2 letter v hc2t hv
        refine ⟨k, ?_, ?_⟩
        · rw [← hlist]
          exact hk
        · show ((buildRowCells (buildCell st letter0 rowIdx v0).1 rowIdx rest).2.get? c2).bind
              cellSharedIdx = some (toString k)
          exact hcell

lemma buildRow_inv (pool0 : List String) (total0 : Int) (rowIdx : Nat) (rec : Record)
    (vs : List String) (st : SSState) (hinv : SSInv pool0 total0 vs st) :
    SSInv pool0 total0 (vs ++ (recordValues rec).filter (fun w => w ≠ ""))
        (buildRow st rowIdx rec).1 ∧
    ∀ (c : Nat) (letter v : String),
      (col_letters.zip (recordValues rec)).get? c = some (letter, v) → v ≠ "" →
      ∃ k, resolveIdx pool0
          (appendedStrings pool0 (vs ++ (recordValues rec).filter (fun w => w ≠ ""))) v
          = some k ∧
        ((buildRow st rowIdx rec).2.childrenOf.get? c).bind cellSharedIdx
          = some (toString k) := by
  have hmap : ((col_letters.zip (recordValues rec)).map Prod.snd) = recordValues rec := rfl
  obtain ⟨h1, h2⟩ :=
    buildRowCells_inv pool0 total0 rowIdx (col_letters.zip (recordValues rec)) vs st hinv
  rw [hmap] at h1 h2
  exact ⟨h1, h2⟩

lemma nonEmptyCellValues_cons (rec : Record) (rest : List Record) :
    nonEmptyCellValues (rec :: rest) =
      (recordValues rec).filter (fun w => w ≠ "") ++ nonEmptyCellValues rest := by
  unfold nonEmptyCellValues
  rw [List.map_cons, List.flatten_cons, List.filter_append]

lemma buildRows_inv (pool0 : List String) (total0 : Int) :
    ∀ (records : List Record) (st : SSState) (rowIdx : Nat) (vs : List String),
      SSInv pool0 total0 vs st →
      SSInv pool0 total0 (vs ++ nonEmptyCellValues records) (buildRows st rowIdx records).1 ∧
      ∀ (i : Nat) (rec : Record) (c : Nat) (letter v : String),
        records.get? i = some rec →
        (col_letters.zip (recordValues rec)).get? c = some (letter, v) → v ≠ "" →
        ∃ k, resolveIdx pool0 (appendedStrings pool0 (vs ++ nonEmptyCellValues records)) v
            = some k ∧
          (((buildRows st rowIdx records).2.get? i).bind
              (fun rowEl => rowEl.childrenOf.get? c)).bind cellSharedIdx
            = some (toString k) := by
  intro records
  induction records with
  | nil =>
    intro st rowIdx vs hinv
    refine ⟨by simpa [nonEmptyCellValues] using hinv, ?_⟩
    intro i rec c letter v hi
    exact absurd hi (by simp)
  | cons rec0 rest ih =>
    intro st rowIdx vs hinv
    obtain ⟨hb1, hb2⟩ := buildRow_inv pool0 total0 rowIdx rec0 vs st hinv
    obtain ⟨hr1, hr2⟩ := ih (buildRow st rowIdx rec0).1 (rowIdx + 1)
        (vs ++ (recordValues rec0).filter (fun w => w ≠ "")) hb1
    have hlist : (vs ++ (recordValues rec0).filter (fun w => w ≠ "")) ++
        nonEmptyCellValues rest = vs ++ nonEmptyCellValues (rec0 :: rest) := by
      rw [nonEmptyCellValues_cons, List.append_assoc]
    constructor
    · rw [← hlist]
      exact hr1
    · intro i rec c letter v hi hc hv
      cases i with
      | zero =>
        have hrec : rec0 = rec := by simpa using hi
        subst hrec
        obtain ⟨k, hk, hcell⟩ := hb2 c letter v hc hv
        refine ⟨k, ?_, ?_⟩
        · rw [← hlist]
          exact resolveIdx_mono pool0 (vs ++ (recordValues rec0).filter (fun w => w ≠ ""))
            (nonEmptyCellValues rest) v k hk
        · show ((buildRow st rowIdx rec0).2.childrenOf.get? c).bind cellSharedIdx
            = some (toString k)
          exact hcell
      | succ i2 =>
        obtain ⟨k, hk, hcell⟩ := hr2 i2 rec c letter v hi hc hv
        refine ⟨k, ?_, ?_⟩
        · rw [← hlist]
          exact hk
        · show (((buildRows (buildRow st rowIdx rec0).1 (rowIdx + 1) rest).2.get? i2).bind
              (fun rowEl => rowEl.childrenOf.get? c)).bind cellSharedIdx = some (toString k)
          exact hcell

lemma siTexts_sstXml (total : Int) (pool : List String) :
    siTexts (sstXml total pool) = some pool := by
  show ((pool.map
      (fun t => Xml.elem (qn "si") [] none [Xml.elem (qn "t") [] (some t) []])).filter
        (fun c => c.tagOf = qn "si")).mapM
      (fun si => (si.findChild (qn "t")).map (fun t => t.textOf.getD "")) = some pool
  induction pool with
  | nil => rfl
  | cons t rest ih =>
    rw [List.map_cons, List.filter_cons]
    have hcond : decide ((Xml.elem (qn "si") [] none
        [Xml.elem (qn "t") [] (some t) []]).tagOf = qn "si") = true := rfl
    rw [if_pos hcond, List.mapM_cons, ih]
    rfl

/-- **C3** — the shared-string pool the writer rebuilds is the template pool
(`pool0`) with the new strings appended in order of first use and nothing
removed or reordered; every non-empty cell value of the synthesized rows has
an entry; values already in the template pool resolve to their original
template index (no duplicate is appended); values not in the template pool
get the strictly increasing fresh indices `pool0.length + j`; and every
synthesized non-empty cell references exactly its value's resolved index. -/
theorem C3_shared_string_pool (sheetRoot sharedRoot : Xml) (records : List Record)
    (sheet' shared' : Xml) (pool0 : List String) (total0 : Int)
    (hsi : siTexts sharedRoot = some pool0)
    (hcnt : sstCount sharedRoot pool0 = some total0)
    (h : render_sheet_core sheetRoot sharedRoot records = .ok (sheet', shared')) :
    siTexts shared'
        = some (pool0 ++ appendedStrings pool0 (nonEmptyCellValues records)) ∧
    (∀ v, v ∈ nonEmptyCellValues records →
      v ∈ pool0 ++ appendedStrings pool0 (nonEmptyCellValues records)) ∧
    (∀ v, v ∈ appendedStrings pool0 (nonEmptyCellValues records) → v ∉ pool0) ∧
    (∀ v, v ∈ pool0 →
      resolveIdx pool0 (appendedStrings pool0 (nonEmptyCellValues records)) v
          = alistLookup (buildIndex pool0) v ∧
      ∃ k, alistLookup (buildIndex pool0) v = some k ∧ pool0.get? k = some v) ∧
    (∀ j v, (appendedStrings pool0 (nonEmptyCellValues records)).get? j = some v →
      resolveIdx pool0 (appendedStrings pool0 (nonEmptyCellValues records)) v
          = some (pool0.length + j)) ∧
    (∀ v k, resolveIdx pool0 (appendedStrings pool0 (nonEmptyCellValues records)) v
          = some k →
      (pool0 ++ appendedStrings pool0 (nonEmptyCellValues records)).get? k = some v) ∧
    (∀ i rec c letter v, records.get? i = some rec →
      (col_letters.zip (recordValues rec)).get? c = some (letter, v) → v ≠ "" →
      ∃ k, resolveIdx pool0 (appendedStrings pool0 (nonEmptyCellValues records)) v
          = some k ∧
        (synthCell sheet' i c).bind cellSharedIdx = some (toString k)) := by
  unfold render_sheet_core at h
  cases hsd : (ensureNs sheetRoot).findChild (qn "sheetData") with
  | none => rw [hsd] at h; exact absurd h (by simp)
  | some sd =>
    simp only [hsd] at h
    cases hrows : sd.findAll (qn "row") with
    | nil => rw [hrows] at h; exact absurd h (by simp)
    | cons headerRow tailRows =>
      simp only [hrows, hsi, hcnt, Except.ok.injEq, Prod.mk.injEq] at h
      obtain ⟨hsheet, hshared⟩ := h
      subst hsheet
      subst hshared
      obtain ⟨hfin, hcells⟩ := buildRows_inv pool0 total0 records
        ⟨pool0, buildIndex pool0, total0⟩ 2 [] (SSInv_init pool0 total0)
      have hfin2 : SSInv pool0 total0 (nonEmptyCellValues records)
          (buildRows ⟨pool0, buildIndex pool0, total0⟩ 2 records).1 := hfin
      obtain ⟨hpool, -, -⟩ := hfin2
      set rowEls := (buildRows ⟨pool0, buildIndex pool0, total0⟩ 2 records).2 with hrowEls
      set newSD := Xml.elem (qn "sheetData") [] none (headerRow :: rowEls) with hnewSD
      have e1 : Xml.findChild
          ((ensureNs sheetRoot).modifyFirstChild (qn "sheetData") (fun _ => newSD))
          (qn "sheetData") = some newSD :=
        findChild_modify_self (ensureNs sheetRoot) (qn "sheetData")
          (fun _ => newSD) (fun c hc => rfl) hsd
      have e2 : Xml.findChild
          (((ensureNs sheetRoot).modifyFirstChild (qn "sheetData")
            (fun _ => newSD)).modifyFirstChild (qn "dimension")
            (fun dim => dim.setAttr "ref"
              ("A1:G" ++ toString (if records.isEmpty then 1 else records.length + 1))))
          (qn "sheetData") = some newSD := by
        rw [findChild_modify_other
          ((ensureNs sheetRoot).modifyFirstChild (qn "sheetData") (fun _ => newSD))
          (qn "dimension") (qn "sheetData")
          (fun dim => dim.setAttr "ref"
            ("A1:G" ++ toString (if records.isEmpty then 1 else records.length + 1)))
          (fun hh => qn_sheetData_ne_dimension hh.symm)
          (fun c hc => by rw [tagOf_setAttr]; exact hc)]
        exact e1
      refine ⟨?_, ?_, ?_, ?_, ?_, ?_, ?_⟩
      · rw [siTexts_sstXml, hpool]
      · intro v hv
        rcases mem_appendedStrings pool0 (nonEmptyCellValues records) v hv with h1 | h2
        · exact List.mem_append.2 (Or.inl h1)
        · exact List.mem_append.2 (Or.inr h2)
      · exact appendedStrings_not_mem_pool pool0 (nonEmptyCellValues records)
      · intro v hvm
        exact ⟨resolveIdx_of_template pool0 _ v hvm, buildIndex_lookup_of_mem pool0 v hvm⟩
      · intro j v hj
        exact resolveIdx_of_new pool0 _ v j
          (appendedStrings_not_mem_pool pool0 _) (appendedStrings_nodup pool0 _) hj
      · intro v k hk
        exact resolveIdx_get pool0 _ v k hk
      · intro i rec c letter v hi hc hv
        obtain ⟨k, hk, hcell⟩ := hcells i rec c letter v hi hc hv
        refine ⟨k, hk, ?_⟩
        unfold synthCell
        rw [e2]
        show ((rowEls.get? i).bind (fun rowEl => rowEl.childrenOf.get? c)).bind cellSharedIdx
          = some (toString k)
        exact hcell

/-- Witness for C3 on the concrete one-record template: the rebuilt pool has
exactly the appended cell value, the value is in the pool, and the
synthesized cell references its resolved index. -/
theorem C3_shared_string_pool_witness :
    siTexts c2Out.2 = some ([] ++ appendedStrings [] (nonEmptyCellValues [c2Rec])) ∧
    "X" ∈ ([] : List String) ++ appendedStrings [] (nonEmptyCellValues [c2Rec]) ∧
    (∃ k, resolveIdx [] (appendedStrings [] (nonEmptyCellValues [c2Rec])) "X" = some k ∧
      (synthCell c2Out.1 0 0).bind cellSharedIdx = some (toString k)) := by
  have hh := C3_shared_string_pool c2Sheet c2Shared [c2Rec] c2Out.1 c2Out.2 [] 0 rfl rfl rfl
  exact ⟨hh.1, hh.2.1 "X" (by decide),
    hh.2.2.2.2.2.2 0 c2Rec 0 "A" "X" rfl rfl (by decide)⟩

end NwpuTranscript
